import Mathlib

/-!
Verification of the agentlint core pipeline against its specification.

The development shallowly embeds the TypeScript sources:
  src/utils/hash.ts        (fingerprint service)
  src/rules/engine.ts      (rule evaluation engine)
  src/scanner.ts           (capability aggregation, scan status)
  src/baseline/index.ts    (baseline suppressor)
  src/diff.ts              (diff engine)
  src/rules/secrets.ts     (SEC-001 environment secret reference rule)
  src/rules/base.ts        (shared finding builder)

Modelling conventions:
- JS numbers used for confidences are exact decimal literals in the source,
  embedded as rationals.
- The SHA-256 digest comes from the Node crypto library (external to the
  repository); it is threaded through as an explicit function parameter.
- JS arrays are lists; a JS Set used for membership or deduplication keeps
  first-occurrence order, embedded as list membership / jsDedup below.
- Optional object fields are Option; optional booleans tested by JS
  truthiness are embedded as Bool (absent = false) where the source only
  ever branches on them.
- Timestamps (new Date().toISOString()) and random ids (crypto.randomBytes)
  are I/O; timestamps are threaded as parameters, and the random change_id
  field of DiffChange, irrelevant to every claim, is omitted.
-/

namespace AgentLint

/-! ## String helpers embedding the JS string methods used by hash.ts -/

/-- Whitespace class of the JS regex \s (ASCII part; the sources only ever
normalize ASCII evidence text). -/
def isJsSpace (c : Char) : Bool :=
  c == ' ' || c == '\t' || c == '\n' || c == '\r' || c == '\x0b' || c == '\x0c'

/-- JS String.prototype.trim: strip leading and trailing whitespace. -/
def jsTrim (s : String) : String :=
  ⟨((s.data.dropWhile isJsSpace).reverse.dropWhile isJsSpace).reverse⟩

/-- Helper for replace(/\s+/g, ' '): the flag records whether the previous
character was part of a whitespace run already replaced by one space. -/
def collapseWsAux : Bool → List Char → List Char
  | _, [] => []
  | prevWs, c :: cs =>
    if isJsSpace c then
      if prevWs then collapseWsAux true cs
      else ' ' :: collapseWsAux true cs
    else c :: collapseWsAux false cs

/-- JS replace(/\s+/g, ' '): collapse every whitespace run to one space. -/
def collapseWs (s : String) : String :=
  ⟨collapseWsAux false s.data⟩

/-- JS String.prototype.toLowerCase (ASCII). -/
def jsToLower (s : String) : String :=
  ⟨s.data.map Char.toLower⟩

/-- JS String.prototype.toUpperCase (ASCII). -/
def jsToUpper (s : String) : String :=
  ⟨s.data.map Char.toUpper⟩

/-- Helper for JS String.prototype.includes: substring test on char lists. -/
def infixAux (pat : List Char) : List Char → Bool
  | [] => pat.isEmpty
  | c :: rest => pat.isPrefixOf (c :: rest) || infixAux pat rest

/-- JS s.includes(pat). -/
def jsIncludes (s pat : String) : Bool :=
  infixAux pat.data s.data

/-- First-occurrence-order deduplication, the embedding of [...new Set(xs)]:
the head is kept and every later duplicate of it is dropped (filtering the
deduplicated tail is equivalent to filtering the tail and structurally
recursive). -/
def jsDedup {α : Type} [DecidableEq α] : List α → List α
  | [] => []
  | a :: l => a :: (jsDedup l).filter (fun b => decide (b ≠ a))

/-! ## src/utils/hash.ts -/

/-- normalizeEvidence from src/utils/hash.ts:
trim, collapse internal whitespace runs to one space, lowercase. -/
def normalizeEvidence (evidence : String) : String :=
  jsToLower (collapseWs (jsTrim evidence))

/-- generateFindingId from src/utils/hash.ts. The sha256 digest function of
the Node crypto library is passed explicitly. -/
def generateFindingId (sha256 : String → String) (ruleId : String) (path : String)
    (startLine : Nat) (evidence : String) : String :=
  let normalized :=
    ruleId ++ "|" ++ path ++ "|" ++ toString startLine ++ "|" ++ normalizeEvidence evidence
  "sha256:" ++ (sha256 normalized).take 16

/-- generateLocationFingerprint from src/utils/hash.ts. -/
def generateLocationFingerprint (sha256 : String → String) (ruleId : String)
    (path : String) (startLine : Nat) (endLine : Nat) : String :=
  let data := ruleId ++ "|" ++ path ++ "|" ++ toString startLine ++ "|" ++ toString endLine
  "sha256:" ++ (sha256 data).take 16

/-- generateContentFingerprint from src/utils/hash.ts. -/
def generateContentFingerprint (sha256 : String → String) (ruleId : String)
    (evidence : String) : String :=
  let data := ruleId ++ "|" ++ normalizeEvidence evidence
  "sha256:" ++ (sha256 data).take 16

/-! ## IR types (src/ir/types.ts), restricted to the fields the embedded
functions read; fields never read by any embedded function are omitted. -/

inductive Severity
  | low
  | medium
  | high
deriving DecidableEq, Repr

inductive ScanStatus
  | pass
  | warn
  | fail
deriving DecidableEq, Repr

inductive DocType
  | skill
  | agent
  | hook
  | rules
  | memory
  | unknown
deriving DecidableEq, Repr

inductive ContextType
  | interactive
  | hook
  | ci
  | unknown
deriving DecidableEq, Repr

inductive ActionType
  | shell_exec
  | file_read
  | file_write
  | network_call
  | git_operation
  | tool_integration
  | unknown
deriving DecidableEq, Repr

inductive EvidenceKind
  | substring
  | regex
  | heuristic
deriving DecidableEq, Repr

inductive NetworkDirection
  | outbound
  | inbound
  | unknown
deriving DecidableEq, Repr

inductive FilesystemOperation
  | read
  | write
  | delete
  | chmod
  | unknown
deriving DecidableEq, Repr

inductive GitOperation
  | commit
  | push
  | checkout
  | merge
  | tag
  | rebase
  | unknown
deriving DecidableEq, Repr

/-- Member type of SecretsDetails.propagates_to. -/
inductive PropagationTarget
  | shell
  | network
  | file
  | unknown
deriving DecidableEq, Repr

structure Anchors where
  start_line : Nat
  end_line : Nat
deriving DecidableEq, Repr

structure Evidence where
  kind : EvidenceKind
  value : String
  confidence : ℚ
deriving DecidableEq, Repr

structure ShellDetails where
  command : Option String
  dynamic : Option Bool
deriving DecidableEq, Repr

structure FilesystemDetails where
  operation : FilesystemOperation
  paths : List String
  sensitive_paths_touched : Option (List String)
deriving DecidableEq, Repr

structure NetworkDetails where
  direction : NetworkDirection
  domains : Option (List String)
  fetches_executable : Option Bool
deriving DecidableEq, Repr

structure GitDetails where
  operation : GitOperation
deriving DecidableEq, Repr

structure SecretsDetails where
  reads_env_vars : Option (List String)
  reads_files : Option (List String)
  propagates_to : Option (List PropagationTarget)
deriving DecidableEq, Repr

structure Action where
  action_id : String
  type : ActionType
  context : ContextType
  summary : String
  anchors : Anchors
  shell : Option ShellDetails
  filesystem : Option FilesystemDetails
  network : Option NetworkDetails
  git : Option GitDetails
  secrets : Option SecretsDetails
  evidence : List Evidence
deriving DecidableEq, Repr

/-- Context profile; runs_in_privileged_env is an optional boolean in the
source, only ever tested by truthiness, so absent is embedded as false. -/
structure ContextProfile where
  primary : ContextType
  runs_in_privileged_env : Bool
deriving DecidableEq, Repr

structure AgentDocument where
  doc_id : String
  path : String
  doc_type : DocType
  context_profile : ContextProfile
  actions : List Action
deriving DecidableEq, Repr

structure FilesystemSummary where
  read : List String
  write : List String
  touches_sensitive_paths : List String
deriving DecidableEq, Repr

structure ShellExecSummary where
  enabled : Bool
  dynamic_detected : Bool
  examples : List String
deriving DecidableEq, Repr

structure NetworkSummary where
  outbound : Bool
  inbound : Bool
  allowed_domains : List String
  fetches_executable : Bool
deriving DecidableEq, Repr

structure SecretsSummary where
  env_vars_referenced : List String
  files_referenced : List String
  propagation_detected : Bool
deriving DecidableEq, Repr

structure GitSummary where
  ops : List GitOperation
deriving DecidableEq, Repr

structure ContextsSummary where
  has_hooks : Bool
  has_ci_context : Bool
deriving DecidableEq, Repr

structure CapabilitySummary where
  filesystem : FilesystemSummary
  shell_exec : ShellExecSummary
  network : NetworkSummary
  secrets : SecretsSummary
  git : GitSummary
  contexts : ContextsSummary
deriving DecidableEq, Repr

structure FindingLocation where
  path : String
  start_line : Nat
  end_line : Nat
deriving DecidableEq, Repr

structure FindingFingerprints where
  stable : String
  location : String
  content : String
deriving DecidableEq, Repr

structure RelatedAction where
  action_type : ActionType
  context : ContextType
  summary : String
  anchors : Anchors
deriving DecidableEq, Repr

structure Finding where
  finding_id : String
  rule_id : String
  group : String
  severity : Severity
  title : String
  description : String
  message : String
  recommendation : String
  confidence : ℚ
  tags : List String
  location : FindingLocation
  evidence : List Evidence
  related_actions : List RelatedAction
  fingerprints : FindingFingerprints
deriving DecidableEq, Repr

structure RuleDefinition where
  id : String
  group : String
  severity : Severity
  title : String
  description : String
  recommendation : String
  tags : List String
deriving DecidableEq, Repr

/-! ## src/rules/base.ts: the shared finding builder -/

/-- createFinding from src/rules/base.ts (BaseRule.createFinding). -/
def createFinding (sha256 : String → String) (definition : RuleDefinition)
    (document : AgentDocument) (location : Anchors) (message : String)
    (evidence : List Evidence) (confidence : ℚ) : Finding :=
  let evidenceValue := match evidence with
    | [] => ""
    | e :: _ => e.value
  { finding_id := generateFindingId sha256 definition.id document.path
      location.start_line evidenceValue
    rule_id := definition.id
    group := definition.group
    severity := definition.severity
    title := definition.title
    description := definition.description
    message := message
    recommendation := definition.recommendation
    confidence := confidence
    tags := definition.tags
    location :=
      { path := document.path
        start_line := location.start_line
        end_line := location.end_line }
    evidence := evidence
    related_actions := []
    fingerprints :=
      { stable := generateFindingId sha256 definition.id document.path
          location.start_line evidenceValue
        location := generateLocationFingerprint sha256 definition.id document.path
          location.start_line location.end_line
        content := generateContentFingerprint sha256 definition.id evidenceValue } }

/-! ## src/scanner.ts: capability aggregation and scan status -/

/-- createEmptyCapabilitySummary / the initial summary literal of
Scanner.computeCapabilitySummary. -/
def emptyCapabilitySummary : CapabilitySummary :=
  { filesystem := { read := [], write := [], touches_sensitive_paths := [] }
    shell_exec := { enabled := false, dynamic_detected := false, examples := [] }
    network := { outbound := false, inbound := false, allowed_domains := [],
                 fetches_executable := false }
    secrets := { env_vars_referenced := [], files_referenced := [],
                 propagation_detected := false }
    git := { ops := [] }
    contexts := { has_hooks := false, has_ci_context := false } }

/-- The per-action switch statement inside Scanner.computeCapabilitySummary
(the switch on action.type). -/
def processActionType (s : CapabilitySummary) (a : Action) : CapabilitySummary :=
  match a.type with
  | .shell_exec =>
    let s := { s with shell_exec.enabled := true }
    let s :=
      if (a.shell.bind (·.dynamic)).getD false then
        { s with shell_exec.dynamic_detected := true }
      else s
    match a.shell.bind (·.command) with
    | some cmd =>
      if cmd ≠ "" ∧ s.shell_exec.examples.length < 5 then
        { s with shell_exec.examples := s.shell_exec.examples ++ [cmd] }
      else s
    | none => s
  | .network_call =>
    let s :=
      if (a.network.map (·.direction)) = some .outbound then
        { s with network.outbound := true }
      else s
    let s :=
      if (a.network.map (·.direction)) = some .inbound then
        { s with network.inbound := true }
      else s
    let s :=
      match a.network.bind (·.domains) with
      | some domains =>
        { s with network.allowed_domains := s.network.allowed_domains ++ domains }
      | none => s
    if (a.network.bind (·.fetches_executable)).getD false then
      { s with network.fetches_executable := true }
    else s
  | .file_write =>
    let s :=
      match a.filesystem.map (·.paths) with
      | some paths =>
        { s with filesystem.write := s.filesystem.write ++ paths }
      | none => s
    match a.filesystem.bind (·.sensitive_paths_touched) with
    | some sens =>
      { s with filesystem.touches_sensitive_paths :=
          s.filesystem.touches_sensitive_paths ++ sens }
    | none => s
  | .file_read =>
    match a.filesystem.map (·.paths) with
    | some paths =>
      { s with filesystem.read := s.filesystem.read ++ paths }
    | none => s
  | .git_operation =>
    match a.git.map (·.operation) with
    | some op => { s with git.ops := s.git.ops ++ [op] }
    | none => s
  | _ => s

/-- The secrets check that runs after the switch for every action. -/
def processActionSecrets (s : CapabilitySummary) (a : Action) : CapabilitySummary :=
  match a.secrets with
  | none => s
  | some sec =>
    let s :=
      match sec.reads_env_vars with
      | some vars =>
        { s with secrets.env_vars_referenced := s.secrets.env_vars_referenced ++ vars }
      | none => s
    let s :=
      match sec.reads_files with
      | some files =>
        { s with secrets.files_referenced := s.secrets.files_referenced ++ files }
      | none => s
    match sec.propagates_to with
    | some targets =>
      if targets.length > 0 then
        { s with secrets.propagation_detected := true }
      else s
    | none => s

/-- One iteration of the inner action loop of
Scanner.computeCapabilitySummary: the type switch, then the secrets check. -/
def processAction (s : CapabilitySummary) (a : Action) : CapabilitySummary :=
  processActionSecrets (processActionType s a) a

/-- One iteration of the outer document loop of
Scanner.computeCapabilitySummary: the context checks, then every action. -/
def processDoc (s : CapabilitySummary) (doc : AgentDocument) : CapabilitySummary :=
  let s := if doc.doc_type = .hook then { s with contexts.has_hooks := true } else s
  let s :=
    if doc.context_profile.runs_in_privileged_env then
      { s with contexts.has_ci_context := true }
    else s
  doc.actions.foldl processAction s

/-- Scanner.computeCapabilitySummary: incremental aggregation over all
documents, then set-deduplication of every list field except
shell_exec.examples (the source deduplicates exactly these seven lists). -/
def computeCapabilitySummary (documents : List AgentDocument) : CapabilitySummary :=
  let s := documents.foldl processDoc emptyCapabilitySummary
  { s with
    filesystem.read := jsDedup s.filesystem.read
    filesystem.write := jsDedup s.filesystem.write
    filesystem.touches_sensitive_paths := jsDedup s.filesystem.touches_sensitive_paths
    network.allowed_domains := jsDedup s.network.allowed_domains
    secrets.env_vars_referenced := jsDedup s.secrets.env_vars_referenced
    secrets.files_referenced := jsDedup s.secrets.files_referenced
    git.ops := jsDedup s.git.ops }

/-! ## src/rules/engine.ts -/

/-- Severity rank used by RuleEngine.sortFindings (high first). -/
def severityOrder : Severity → Nat
  | .high => 0
  | .medium => 1
  | .low => 2

/-- Severity rank used by RuleEngine.filterBySeverity (high = 3). -/
def severityLevel : Severity → Nat
  | .high => 3
  | .medium => 2
  | .low => 1

/-- The comparator passed to Array.prototype.sort in RuleEngine.sortFindings.
The String.prototype.localeCompare it calls for path and rule-id ties is the
runtime's ICU default-locale collation: an external library function, like
the crypto digest, not part of this repository. It is therefore threaded
through as an explicit function localeCompare returning the sign of the
comparison; the ordering theorem assumes of it only the ECMAScript
consistent-comparator requirements (ConsistentComparator below). -/
def compareFindingsWith (localeCompare : String → String → Int) (a b : Finding) : Int :=
  let severityDiff : Int := (severityOrder a.severity : Int) - (severityOrder b.severity : Int)
  if severityDiff ≠ 0 then severityDiff
  else
    let pathDiff := localeCompare a.location.path b.location.path
    if pathDiff ≠ 0 then pathDiff
    else
      let lineDiff : Int := (a.location.start_line : Int) - (b.location.start_line : Int)
      if lineDiff ≠ 0 then lineDiff
      else localeCompare a.rule_id b.rule_id

/-- The non-strict order induced by the comparator. -/
def findingLEWith (localeCompare : String → String → Int) (a b : Finding) : Bool :=
  decide (compareFindingsWith localeCompare a b ≤ 0)

/-- RuleEngine.sortFindings over an explicit collation function.
Array.prototype.sort with a consistent comparator is required by ECMAScript
to produce a stably sorted array; it is embedded as the stable merge sort
ordered by the comparator. -/
def sortFindingsWith (localeCompare : String → String → Int)
    (findings : List Finding) : List Finding :=
  findings.mergeSort (findingLEWith localeCompare)

/-- One concrete comparator instance: the sign of the codepoint-order
comparison. This is used only to run the pipeline on concrete inputs
(witnesses); it is NOT the ICU collation (which, e.g., orders agent.md
before README.md, the opposite of codepoint order), and no claim-level
ordering theorem fixes the comparator to this instance. -/
def codepointCompare (a b : String) : Int :=
  if a < b then -1 else if b < a then 1 else 0

/-- RuleEngine.sortFindings instantiated at the concrete codepoint
comparator (for concrete evaluation only; see sortFindingsWith). -/
def sortFindings (findings : List Finding) : List Finding :=
  sortFindingsWith codepointCompare findings

structure RuleContext where
  document : AgentDocument
  allDocuments : List AgentDocument
  capabilitySummary : CapabilitySummary
  minConfidence : ℚ

/-- A rule of the registry: fixed metadata plus its evaluate operation.
Rule exceptions are caught and logged by the engine; evaluate is embedded as
a total function. -/
structure Rule where
  definition : RuleDefinition
  evaluate : RuleContext → List Finding

/-- RuleEngineOptions; severity_overrides (a JS Record keyed by rule id) is
an association list. -/
structure RuleEngineOptions where
  minConfidence : ℚ
  disabledRules : List String
  severityOverrides : List (String × Severity)

/-- The RuleEngine class: its rule registry and options. -/
structure RuleEngine where
  rules : List Rule
  options : RuleEngineOptions

/-- RuleEngine.evaluateDocument: skip disabled rules, evaluate, apply any
severity override to each returned finding, then keep it only when its
confidence reaches the configured minimum. -/
def evaluateDocument (engine : RuleEngine) (document : AgentDocument)
    (allDocuments : List AgentDocument) (capabilitySummary : CapabilitySummary) :
    List Finding :=
  let context : RuleContext :=
    { document := document
      allDocuments := allDocuments
      capabilitySummary := capabilitySummary
      minConfidence := engine.options.minConfidence }
  engine.rules.foldl
    (fun findings rule =>
      if engine.options.disabledRules.contains rule.definition.id then findings
      else
        let ruleFindings := rule.evaluate context
        ruleFindings.foldl
          (fun findings finding =>
            let finding :=
              match engine.options.severityOverrides.lookup rule.definition.id with
              | some sev => { finding with severity := sev }
              | none => finding
            if engine.options.minConfidence ≤ finding.confidence then
              findings ++ [finding]
            else findings)
          findings)
    []

/-- RuleEngine.evaluateAll over an explicit collation function: accumulate
per-document findings, then sort. -/
def evaluateAllWith (localeCompare : String → String → Int) (engine : RuleEngine)
    (documents : List AgentDocument) (capabilitySummary : CapabilitySummary) :
    List Finding :=
  let findings := documents.foldl
    (fun findings document =>
      findings ++ evaluateDocument engine document documents capabilitySummary)
    []
  sortFindingsWith localeCompare findings

/-- RuleEngine.evaluateAll: accumulate per-document findings, then sort
(instantiated at the concrete codepoint comparator; the membership and
confidence facts proved about it are permutation-invariant, hence
independent of the comparator). -/
def evaluateAll (engine : RuleEngine) (documents : List AgentDocument)
    (capabilitySummary : CapabilitySummary) : List Finding :=
  let findings := documents.foldl
    (fun findings document =>
      findings ++ evaluateDocument engine document documents capabilitySummary)
    []
  sortFindings findings

/-- RuleEngine.filterBySeverity. -/
def filterBySeverity (findings : List Finding) (minSeverity : Severity) : List Finding :=
  findings.filter (fun f => severityLevel minSeverity ≤ severityLevel f.severity)

/-! ## src/scanner.ts: Scanner.determineStatus -/

/-- The policy.policy fields read by Scanner.determineStatus; the union
member none of fail_on / warn_on is Option.none. -/
structure PolicyPolicy where
  fail_on : Option Severity
  warn_on : Option Severity
  strict : Bool

/-- Scanner.determineStatus: fail_on findings first, then warn_on findings,
then strict-mode escalation of accumulated errors, else pass. Returns
(status, exit code). -/
def determineStatus (policy : PolicyPolicy) (findings : List Finding)
    (errors : List String) : ScanStatus × Nat :=
  if (match policy.fail_on with
      | some sev => decide ((filterBySeverity findings sev).length > 0)
      | none => false) then (.fail, 1)
  else if (match policy.warn_on with
      | some sev => decide ((filterBySeverity findings sev).length > 0)
      | none => false) then (.warn, 0)
  else if policy.strict && decide (errors.length > 0) then (.fail, 4)
  else (.pass, 0)

/-! ## src/baseline/index.ts -/

structure BaselinedFinding where
  rule_id : String
  path : String
  fingerprint : String
  baselined_at : String
  reason : Option String
deriving DecidableEq, Repr

structure Baseline where
  version : Nat
  created_at : String
  updated_at : String
  findings : List BaselinedFinding
deriving DecidableEq, Repr

structure BaselineFilterResult where
  newFindings : Nat
  suppressedFindings : Nat
  fixedFindings : Nat
deriving DecidableEq, Repr

namespace BaselineManager

/-- BaselineManager.findingToBaseline; the baselined_at timestamp is the
current time, threaded as the now parameter. -/
def findingToBaseline (now : String) (reason : Option String) (finding : Finding) :
    BaselinedFinding :=
  { rule_id := finding.rule_id
    path := finding.location.path
    fingerprint := finding.fingerprints.stable
    baselined_at := now
    reason := reason }

/-- BaselineManager.create: replace the baseline with the given findings. -/
def create (now : String) (findings : List Finding) (reason : Option String) : Baseline :=
  { version := 1
    created_at := now
    updated_at := now
    findings := findings.map (findingToBaseline now reason) }

/-- BaselineManager.filterFindings: the loaded baseline (this.baseline) is
the explicit first argument; none is the unloaded state. Returns the
filtered list and the new/suppressed/fixed counts without touching the
baseline. -/
def filterFindings (baseline : Option Baseline) (findings : List Finding) :
    List Finding × BaselineFilterResult :=
  match baseline with
  | none =>
    (findings,
      { newFindings := findings.length, suppressedFindings := 0, fixedFindings := 0 })
  | some b =>
    let baselineFingerprints := b.findings.map (·.fingerprint)
    let filtered :=
      findings.filter (fun finding =>
        !(baselineFingerprints.contains finding.fingerprints.stable))
    let matchedFingerprints :=
      (findings.map (·.fingerprints.stable)).filter
        (fun fp => baselineFingerprints.contains fp)
    let fixedFindings :=
      (b.findings.filter (fun bf => !(matchedFingerprints.contains bf.fingerprint))).length
    (filtered,
      { newFindings := filtered.length
        suppressedFindings := findings.length - filtered.length
        fixedFindings := fixedFindings })

end BaselineManager

/-! ## src/diff.ts -/

/-- DiffChange without its change_id (a fresh random id) and without the
untyped details payload (a JS Record echoing the message data); every claim
concerns the type, severity and message. -/
structure DiffChange where
  type : String
  severity : Severity
  message : String
deriving DecidableEq, Repr

/-- The broad write-scope sentinels of detectCapabilityChanges. -/
def broadPatterns : List String := ["**/*", "**", "*"]

/-- detectCapabilityChanges from src/diff.ts: every push is guarded by a
false-to-true or set-growth condition, in source order. -/
def detectCapabilityChanges (base target : CapabilitySummary) : List DiffChange :=
  (if !base.shell_exec.enabled && target.shell_exec.enabled then
    [{ type := "capability_expansion", severity := .high,
       message := "shell_exec.enabled: false → true" }]
  else []) ++
  (if !base.shell_exec.dynamic_detected && target.shell_exec.dynamic_detected then
    [{ type := "shell_dynamic_introduced", severity := .high,
       message := "shell_exec.dynamic: false → true" }]
  else []) ++
  (if !base.network.outbound && target.network.outbound then
    [{ type := "network_new_outbound", severity := .high,
       message := "network.outbound: false → true" }]
  else []) ++
  (if !base.network.inbound && target.network.inbound then
    [{ type := "network_expansion", severity := .medium,
       message := "network.inbound: false → true" }]
  else []) ++
  (if !base.network.fetches_executable && target.network.fetches_executable then
    [{ type := "capability_expansion", severity := .high,
       message := "network.fetches_executable: false → true" }]
  else []) ++
  (if !base.contexts.has_hooks && target.contexts.has_hooks then
    [{ type := "context_change_to_hook", severity := .high,
       message := "Hooks added to configuration" }]
  else []) ++
  (if !base.contexts.has_ci_context && target.contexts.has_ci_context then
    [{ type := "context_change_to_ci", severity := .medium,
       message := "CI context added to configuration" }]
  else []) ++
  (let newSensitivePaths :=
    target.filesystem.touches_sensitive_paths.filter
      (fun p => !(base.filesystem.touches_sensitive_paths.contains p))
   if newSensitivePaths.length > 0 then
    [{ type := "sensitive_path_newly_touched", severity := .high,
       message := "New sensitive paths touched: " ++ String.intercalate ", " newSensitivePaths }]
   else []) ++
  (let targetHasBroad := target.filesystem.write.any (fun w => broadPatterns.contains w)
   let baseHadBroad := base.filesystem.write.any (fun w => broadPatterns.contains w)
   if targetHasBroad && !baseHadBroad then
    [{ type := "write_scope_widening_to_all", severity := .high,
       message := "Write scope widened to include all files" }]
   else []) ++
  (let newSecretVars :=
    target.secrets.env_vars_referenced.filter
      (fun v => !(base.secrets.env_vars_referenced.contains v))
   if newSecretVars.length > 0 then
    [{ type := "capability_expansion", severity := .high,
       message := "New secret variables referenced: " ++ String.intercalate ", " newSecretVars }]
   else []) ++
  (if !base.secrets.propagation_detected && target.secrets.propagation_detected then
    [{ type := "capability_expansion", severity := .high,
       message := "Secret propagation detected" }]
  else [])

/-- DiffOptions; the policy field is not read by the embedded functions. -/
structure DiffOptions where
  failOn : List String
  warnOn : List String

/-- determineDiffStatus from src/diff.ts: fail-triggering change types, then
the new_high_findings rule, then warn-triggering change types, then the
new_medium_findings rule; first hit wins, else pass. The source loops over
failOn / warnOn with an early return, embedded as any. -/
def determineDiffStatus (changes : List DiffChange) (newFindings : List Finding)
    (options : DiffOptions) : ScanStatus × Nat :=
  if options.failOn.any (fun changeType => changes.any (fun c => c.type == changeType)) then
    (.fail, 1)
  else if options.failOn.contains "new_high_findings" &&
      newFindings.any (fun f => decide (f.severity = .high)) then
    (.fail, 1)
  else if options.warnOn.any (fun changeType => changes.any (fun c => c.type == changeType)) then
    (.warn, 0)
  else if options.warnOn.contains "new_medium_findings" &&
      newFindings.any (fun f => decide (f.severity = .medium)) then
    (.warn, 0)
  else (.pass, 0)

/-! ## src/rules/secrets.ts: SEC-001 -/

/-- KNOWN_SECRET_VARS from src/rules/secrets.ts. -/
def KNOWN_SECRET_VARS : List String :=
  ["GITHUB_TOKEN", "GH_TOKEN", "GITLAB_TOKEN", "AWS_SECRET_ACCESS_KEY",
   "AWS_ACCESS_KEY_ID", "AWS_SESSION_TOKEN", "AZURE_CLIENT_SECRET",
   "AZURE_CLIENT_ID", "AZURE_TENANT_ID", "AZURE_SUBSCRIPTION_ID",
   "GOOGLE_APPLICATION_CREDENTIALS", "GCP_SERVICE_ACCOUNT", "GCLOUD_SERVICE_KEY",
   "API_KEY", "API_SECRET", "SECRET_KEY", "PRIVATE_KEY", "DATABASE_PASSWORD",
   "DATABASE_URL", "DB_PASSWORD", "DB_HOST", "REDIS_PASSWORD", "MONGODB_URI",
   "PASSWORD", "TOKEN", "NPM_TOKEN", "NPM_AUTH_TOKEN", "PYPI_TOKEN",
   "PYPI_PASSWORD", "DOCKER_PASSWORD", "DOCKER_AUTH", "SSH_PRIVATE_KEY",
   "SSH_KEY", "SLACK_TOKEN", "SLACK_WEBHOOK", "DISCORD_TOKEN",
   "SENDGRID_API_KEY", "STRIPE_SECRET_KEY", "TWILIO_AUTH_TOKEN",
   "OPENAI_API_KEY", "ANTHROPIC_API_KEY", "ENCRYPTION_KEY", "JWT_SECRET",
   "SESSION_SECRET", "COOKIE_SECRET"]

/-- The rule metadata set by the EnvironmentSecretReferenceRule constructor. -/
def SEC001 : RuleDefinition :=
  { id := "SEC-001"
    group := "secrets"
    severity := .high
    title := "Environment Secret Reference"
    description := "References to known secret environment variables such as GITHUB_TOKEN, AWS_SECRET_ACCESS_KEY, or API_KEY. Agents should not touch secrets by default."
    recommendation := "Remove secret references from agent configurations. Use secure secret management practices."
    tags := ["secrets", "credentials", "environment"] }

namespace EnvironmentSecretReferenceRule

/-- EnvironmentSecretReferenceRule.isKnownSecretVar: exact match or
substring containment of a catalog entry in the upper-cased name. -/
def isKnownSecretVar (varName : String) : Bool :=
  let upperVar := jsToUpper varName
  KNOWN_SECRET_VARS.any (fun secret => upperVar == secret || jsIncludes upperVar secret)

/-- The JS idiom action.evidence[0]?.confidence || 0.9 (0 is falsy). -/
def headConfidence (evidence : List Evidence) : ℚ :=
  match evidence with
  | [] => 0.9
  | e :: _ => if e.confidence = 0 then 0.9 else e.confidence

/-- EnvironmentSecretReferenceRule.evaluate: one finding per known-secret
variable occurrence in an action (confidence permitting), then one
summary-level finding per known secret variable of the capability summary
not already named by an action-level finding message. -/
def evaluate (sha256 : String → String) (context : RuleContext) : List Finding :=
  let actionFindings :=
    context.document.actions.foldl
      (fun findings action =>
        let secretVars := (action.secrets.bind (·.reads_env_vars)).getD []
        secretVars.foldl
          (fun findings varName =>
            if isKnownSecretVar varName then
              let confidence := headConfidence action.evidence
              if confidence < context.minConfidence then findings
              else
                let finding := createFinding sha256 SEC001 context.document action.anchors
                  ("Reference to secret environment variable: $" ++ varName ++
                    ". Agents should not access secrets directly.")
                  [{ kind := .regex, value := "$" ++ varName, confidence := confidence }]
                  confidence
                let finding := { finding with related_actions :=
                  [{ action_type := action.type, context := action.context,
                     summary := action.summary, anchors := action.anchors }] }
                findings ++ [finding]
            else findings)
          findings)
      []
  context.capabilitySummary.secrets.env_vars_referenced.foldl
    (fun findings varName =>
      if isKnownSecretVar varName &&
          !(findings.any (fun f => jsIncludes f.message varName)) then
        findings ++
          [createFinding sha256 SEC001 context.document
            { start_line := 1, end_line := 1 }
            ("Reference to secret environment variable: $" ++ varName ++ ".")
            [{ kind := .heuristic,
               value := "Secret variable referenced: " ++ varName,
               confidence := 0.8 }]
            0.8]
      else findings)
    actionFindings

end EnvironmentSecretReferenceRule

/-! ## Proof-side characterizations (each is a restatement of a source
fragment used to phrase and prove the claims) -/

/-- The severity-override step of RuleEngine.evaluateDocument in isolation. -/
def applyOverride (options : RuleEngineOptions) (ruleId : String) (f : Finding) : Finding :=
  match options.severityOverrides.lookup ruleId with
  | some sev => { f with severity := sev }
  | none => f

/-- The ECMAScript requirements on a comparator passed to
Array.prototype.sort (a consistent comparison function): the induced
non-strict order is transitive, the sign flips when the arguments swap, and
zero results are symmetric. The ICU collation behind
String.prototype.localeCompare is a total preorder on strings and satisfies
all four clauses. -/
def ConsistentComparator (localeCompare : String → String → Int) : Prop :=
  (∀ a b c, localeCompare a b ≤ 0 → localeCompare b c ≤ 0 → localeCompare a c ≤ 0) ∧
  (∀ a b, localeCompare a b < 0 → 0 < localeCompare b a) ∧
  (∀ a b, 0 < localeCompare a b → localeCompare b a < 0) ∧
  (∀ a b, localeCompare a b = 0 → localeCompare b a = 0)

/-- The ordering the spec promises for the final finding list, relative to
the runtime's collation: severity (high before medium before low), then
document path in the collation's lexical order, then start line ascending,
then rule id in the collation's lexical order. -/
def specLEWith (localeCompare : String → String → Int) (a b : Finding) : Prop :=
  severityOrder a.severity < severityOrder b.severity ∨
    (a.severity = b.severity ∧
      (localeCompare a.location.path b.location.path < 0 ∨
        (localeCompare a.location.path b.location.path = 0 ∧
          (a.location.start_line < b.location.start_line ∨
            (a.location.start_line = b.location.start_line ∧
              localeCompare a.rule_id b.rule_id ≤ 0)))))

/-- The ten false-to-true / set-growth trigger conditions of
detectCapabilityChanges, as propositions. -/
def growthCondition (base target : CapabilitySummary) : Prop :=
  (base.shell_exec.enabled = false ∧ target.shell_exec.enabled = true) ∨
  (base.shell_exec.dynamic_detected = false ∧ target.shell_exec.dynamic_detected = true) ∨
  (base.network.outbound = false ∧ target.network.outbound = true) ∨
  (base.network.inbound = false ∧ target.network.inbound = true) ∨
  (base.network.fetches_executable = false ∧ target.network.fetches_executable = true) ∨
  (base.contexts.has_hooks = false ∧ target.contexts.has_hooks = true) ∨
  (base.contexts.has_ci_context = false ∧ target.contexts.has_ci_context = true) ∨
  (∃ p ∈ target.filesystem.touches_sensitive_paths,
    p ∉ base.filesystem.touches_sensitive_paths) ∨
  (target.filesystem.write.any (fun w => broadPatterns.contains w) = true ∧
    base.filesystem.write.any (fun w => broadPatterns.contains w) = false) ∨
  (∃ v ∈ target.secrets.env_vars_referenced,
    v ∉ base.secrets.env_vars_referenced) ∨
  (base.secrets.propagation_detected = false ∧ target.secrets.propagation_detected = true)

/-- Target capabilities are (weakly) shrunk relative to base: every tracked
boolean is implied and every tracked set is contained. -/
def Shrinks (base target : CapabilitySummary) : Prop :=
  (target.shell_exec.enabled = true → base.shell_exec.enabled = true) ∧
  (target.shell_exec.dynamic_detected = true → base.shell_exec.dynamic_detected = true) ∧
  (target.network.outbound = true → base.network.outbound = true) ∧
  (target.network.inbound = true → base.network.inbound = true) ∧
  (target.network.fetches_executable = true → base.network.fetches_executable = true) ∧
  (target.contexts.has_hooks = true → base.contexts.has_hooks = true) ∧
  (target.contexts.has_ci_context = true → base.contexts.has_ci_context = true) ∧
  (∀ p ∈ target.filesystem.touches_sensitive_paths,
    p ∈ base.filesystem.touches_sensitive_paths) ∧
  (target.filesystem.write.any (fun w => broadPatterns.contains w) = true →
    base.filesystem.write.any (fun w => broadPatterns.contains w) = true) ∧
  (∀ v ∈ target.secrets.env_vars_referenced, v ∈ base.secrets.env_vars_referenced) ∧
  (target.secrets.propagation_detected = true → base.secrets.propagation_detected = true)

/-! ### Per-action contributions to the capability summary (used to
characterize Scanner.computeCapabilitySummary) -/

def actionReadPaths (a : Action) : List String :=
  match a.type, a.filesystem with
  | .file_read, some fsd => fsd.paths
  | _, _ => []

def actionWritePaths (a : Action) : List String :=
  match a.type, a.filesystem with
  | .file_write, some fsd => fsd.paths
  | _, _ => []

def actionSensitivePaths (a : Action) : List String :=
  match a.type, a.filesystem with
  | .file_write, some fsd => fsd.sensitive_paths_touched.getD []
  | _, _ => []

def actionDomains (a : Action) : List String :=
  match a.type, a.network with
  | .network_call, some nd => nd.domains.getD []
  | _, _ => []

def actionGitOps (a : Action) : List GitOperation :=
  match a.type, a.git with
  | .git_operation, some gd => [gd.operation]
  | _, _ => []

def actionEnvVars (a : Action) : List String :=
  (a.secrets.bind (·.reads_env_vars)).getD []

def actionFiles (a : Action) : List String :=
  (a.secrets.bind (·.reads_files)).getD []

def actionCmds (a : Action) : List String :=
  match a.type, a.shell with
  | .shell_exec, some sd =>
    match sd.command with
    | some cmd => if cmd ≠ "" then [cmd] else []
    | none => []
  | _, _ => []

def actionShellEnabled (a : Action) : Bool :=
  decide (a.type = .shell_exec)

def actionDynamic (a : Action) : Bool :=
  decide (a.type = .shell_exec) && (a.shell.bind (·.dynamic)).getD false

def actionOutbound (a : Action) : Bool :=
  decide (a.type = .network_call) && decide ((a.network.map (·.direction)) = some .outbound)

def actionInbound (a : Action) : Bool :=
  decide (a.type = .network_call) && decide ((a.network.map (·.direction)) = some .inbound)

def actionFetchesExec (a : Action) : Bool :=
  decide (a.type = .network_call) && (a.network.bind (·.fetches_executable)).getD false

def actionPropagation (a : Action) : Bool :=
  match a.secrets.bind (·.propagates_to) with
  | some targets => decide (targets.length > 0)
  | none => false

/-- One processAction step, written field by field. -/
def stepSummary (s : CapabilitySummary) (a : Action) : CapabilitySummary :=
  { filesystem :=
      { read := s.filesystem.read ++ actionReadPaths a
        write := s.filesystem.write ++ actionWritePaths a
        touches_sensitive_paths :=
          s.filesystem.touches_sensitive_paths ++ actionSensitivePaths a }
    shell_exec :=
      { enabled := s.shell_exec.enabled || actionShellEnabled a
        dynamic_detected := s.shell_exec.dynamic_detected || actionDynamic a
        examples := s.shell_exec.examples ++
          (actionCmds a).take (5 - s.shell_exec.examples.length) }
    network :=
      { outbound := s.network.outbound || actionOutbound a
        inbound := s.network.inbound || actionInbound a
        allowed_domains := s.network.allowed_domains ++ actionDomains a
        fetches_executable := s.network.fetches_executable || actionFetchesExec a }
    secrets :=
      { env_vars_referenced := s.secrets.env_vars_referenced ++ actionEnvVars a
        files_referenced := s.secrets.files_referenced ++ actionFiles a
        propagation_detected := s.secrets.propagation_detected || actionPropagation a }
    git := { ops := s.git.ops ++ actionGitOps a }
    contexts := s.contexts }

/-! ### Per-document contributions -/

def docReadPaths (d : AgentDocument) : List String := d.actions.flatMap actionReadPaths
def docWritePaths (d : AgentDocument) : List String := d.actions.flatMap actionWritePaths
def docSensitivePaths (d : AgentDocument) : List String := d.actions.flatMap actionSensitivePaths
def docDomains (d : AgentDocument) : List String := d.actions.flatMap actionDomains
def docGitOps (d : AgentDocument) : List GitOperation := d.actions.flatMap actionGitOps
def docEnvVars (d : AgentDocument) : List String := d.actions.flatMap actionEnvVars
def docFiles (d : AgentDocument) : List String := d.actions.flatMap actionFiles
def docCmds (d : AgentDocument) : List String := d.actions.flatMap actionCmds
def docShellEnabled (d : AgentDocument) : Bool := d.actions.any actionShellEnabled
def docDynamic (d : AgentDocument) : Bool := d.actions.any actionDynamic
def docOutbound (d : AgentDocument) : Bool := d.actions.any actionOutbound
def docInbound (d : AgentDocument) : Bool := d.actions.any actionInbound
def docFetchesExec (d : AgentDocument) : Bool := d.actions.any actionFetchesExec
def docPropagation (d : AgentDocument) : Bool := d.actions.any actionPropagation
def docHasHook (d : AgentDocument) : Bool := decide (d.doc_type = .hook)
def docCI (d : AgentDocument) : Bool := d.context_profile.runs_in_privileged_env

/-! ### Concrete data used by witnesses and counterexamples -/

/-- A single plain shell action (confidences kept integral so that concrete
evaluation stays kernel-decidable). -/
def exampleShellAction : Action :=
  { action_id := "a1"
    type := .shell_exec
    context := .interactive
    summary := "runs ls"
    anchors := { start_line := 1, end_line := 1 }
    shell := some { command := some "ls", dynamic := some false }
    filesystem := none
    network := none
    git := none
    secrets := none
    evidence := [{ kind := .substring, value := "ls", confidence := 1 }] }

/-- A skill document containing the one shell action. -/
def exampleShellDoc : AgentDocument :=
  { doc_id := "d1"
    path := "skill.md"
    doc_type := .skill
    context_profile := { primary := .interactive, runs_in_privileged_env := false }
    actions := [exampleShellAction] }

/-- An action whose secrets detail references STRIPE_SECRET_KEY once. -/
def stripeAction : Action :=
  { action_id := "a2"
    type := .shell_exec
    context := .interactive
    summary := "uses stripe key"
    anchors := { start_line := 4, end_line := 4 }
    shell := none
    filesystem := none
    network := none
    git := none
    secrets := some { reads_env_vars := some ["STRIPE_SECRET_KEY"]
                      reads_files := none
                      propagates_to := none }
    evidence := [{ kind := .regex, value := "$STRIPE_SECRET_KEY", confidence := 1 }] }

/-- A second, distinct action referencing the same variable. -/
def stripeAction2 : Action :=
  { stripeAction with
    action_id := "a3"
    anchors := { start_line := 9, end_line := 9 } }

/-- A document in which two distinct actions each reference
STRIPE_SECRET_KEY. -/
def stripeDocTwoActions : AgentDocument :=
  { doc_id := "d2"
    path := "agent.md"
    doc_type := .agent
    context_profile := { primary := .interactive, runs_in_privileged_env := false }
    actions := [stripeAction, stripeAction2] }

/-- A document in which exactly one action references STRIPE_SECRET_KEY. -/
def stripeDocOneAction : AgentDocument :=
  { stripeDocTwoActions with doc_id := "d3", actions := [stripeAction] }

/-- A capability summary recording the STRIPE_SECRET_KEY reference, as the
aggregator would produce for the stripe documents. -/
def stripeSummary : CapabilitySummary :=
  { emptyCapabilitySummary with
    secrets.env_vars_referenced := ["STRIPE_SECRET_KEY"] }

/-- A finding as a rule would emit it, with integral confidence. -/
def exampleFinding : Finding :=
  { finding_id := "sha256:0000000000000000"
    rule_id := "EXEC-002"
    group := "execution"
    severity := .medium
    title := "Shell Command Execution"
    description := "Shell command detected."
    message := "Shell command: ls"
    recommendation := "Restrict shell usage."
    confidence := 1
    tags := ["shell"]
    location := { path := "skill.md", start_line := 1, end_line := 1 }
    evidence := [{ kind := .substring, value := "ls", confidence := 1 }]
    related_actions := []
    fingerprints := { stable := "sha256:0000000000000000"
                      location := "sha256:1111111111111111"
                      content := "sha256:2222222222222222" } }

/-- Metadata of the one rule of the example engine. -/
def exampleRuleDefinition : RuleDefinition :=
  { id := "EXEC-002"
    group := "execution"
    severity := .medium
    title := "Shell Command Execution"
    description := "Shell command detected."
    recommendation := "Restrict shell usage."
    tags := ["shell"] }

/-- A rule that always returns exampleFinding. -/
def exampleRule : Rule :=
  { definition := exampleRuleDefinition
    evaluate := fun _ => [exampleFinding] }

/-- A one-rule engine whose single rule returns exampleFinding. -/
def exampleEngine : RuleEngine :=
  { rules := [exampleRule]
    options := { minConfidence := 0, disabledRules := [], severityOverrides := [] } }

end AgentLint

/-! # Theorems -/

namespace AgentLint

/-- C10: the shared finding builder computes finding_id and
fingerprints.stable with the same function over the same inputs, so the two
fields are always equal. -/
theorem createFinding_id_eq_stable (sha256 : String → String)
    (definition : RuleDefinition) (document : AgentDocument) (location : Anchors)
    (message : String) (evidence : List Evidence) (confidence : ℚ) :
    (createFinding sha256 definition document location message evidence
        confidence).finding_id =
      (createFinding sha256 definition document location message evidence
        confidence).fingerprints.stable := rfl

/-- C1: the stable fingerprint factors through normalize(evidence); two
evidence strings with the same normal form (in particular strings differing
only in leading/trailing whitespace, internal whitespace run length, or
letter case) receive the same stable fingerprint for any rule id, path and
start line. -/
theorem generateFindingId_normalize_invariant (sha256 : String → String)
    (ruleId path : String) (startLine : Nat) (e1 e2 : String)
    (h : normalizeEvidence e1 = normalizeEvidence e2) :
    generateFindingId sha256 ruleId path startLine e1 =
      generateFindingId sha256 ruleId path startLine e2 := by
  unfold generateFindingId
  rw [h]

/-- C1 witness: two evidence strings differing only in whitespace runs and
case, evaluated at a concrete hash function. -/
theorem generateFindingId_normalize_invariant_witness :
    normalizeEvidence "  Curl   HTTPS://X.com/install.sh " =
        normalizeEvidence "curl https://x.com/install.sh" ∧
      generateFindingId (fun s => s) "EXEC-001" "skill.md" 3
          "  Curl   HTTPS://X.com/install.sh " =
        generateFindingId (fun s => s) "EXEC-001" "skill.md" 3
          "curl https://x.com/install.sh" :=
  ⟨by decide,
    generateFindingId_normalize_invariant (fun s => s) "EXEC-001" "skill.md" 3
      "  Curl   HTTPS://X.com/install.sh " "curl https://x.com/install.sh" (by decide)⟩

/-- C7: the diff verdict is decided in the fixed order fail-triggering
change types, fail-on-new-high-findings, warn-triggering change types,
warn-on-new-medium-findings, first hit winning, otherwise pass. -/
theorem determineDiffStatus_first_hit (changes : List DiffChange)
    (newFindings : List Finding) (options : DiffOptions) :
    determineDiffStatus changes newFindings options =
      if ∃ c ∈ changes, c.type ∈ options.failOn then (ScanStatus.fail, 1)
      else if "new_high_findings" ∈ options.failOn ∧
          ∃ f ∈ newFindings, f.severity = .high then (ScanStatus.fail, 1)
      else if ∃ c ∈ changes, c.type ∈ options.warnOn then (ScanStatus.warn, 0)
      else if "new_medium_findings" ∈ options.warnOn ∧
          ∃ f ∈ newFindings, f.severity = .medium then (ScanStatus.warn, 0)
      else (ScanStatus.pass, 0) := by
  have h1 : (options.failOn.any fun changeType =>
        changes.any fun c => c.type == changeType) = true ↔
      ∃ c ∈ changes, c.type ∈ options.failOn := by
    simp only [List.any_eq_true, beq_iff_eq]
    constructor
    · rintro ⟨t, ht, c, hc, he⟩
      exact ⟨c, hc, he ▸ ht⟩
    · rintro ⟨c, hc, ht⟩
      exact ⟨c.type, ht, c, hc, rfl⟩
  have h3 : (options.warnOn.any fun changeType =>
        changes.any fun c => c.type == changeType) = true ↔
      ∃ c ∈ changes, c.type ∈ options.warnOn := by
    simp only [List.any_eq_true, beq_iff_eq]
    constructor
    · rintro ⟨t, ht, c, hc, he⟩
      exact ⟨c, hc, he ▸ ht⟩
    · rintro ⟨c, hc, ht⟩
      exact ⟨c.type, ht, c, hc, rfl⟩
  have h2 : (options.failOn.contains "new_high_findings" &&
        newFindings.any fun f => decide (f.severity = .high)) = true ↔
      "new_high_findings" ∈ options.failOn ∧
        ∃ f ∈ newFindings, f.severity = .high := by
    simp [List.any_eq_true]
  have h4 : (options.warnOn.contains "new_medium_findings" &&
        newFindings.any fun f => decide (f.severity = .medium)) = true ↔
      "new_medium_findings" ∈ options.warnOn ∧
        ∃ f ∈ newFindings, f.severity = .medium := by
    simp [List.any_eq_true]
  unfold determineDiffStatus
  rw [if_congr h1 rfl (if_congr h2 rfl (if_congr h3 rfl (if_congr h4 rfl rfl)))]

/-- C8: with strict set, accumulated errors escalate a zero-finding scan to
fail; without strict, accumulated errors never affect the outcome. -/
theorem determineStatus_strict (policy : PolicyPolicy) :
    (∀ errors : List String, policy.strict = true → errors ≠ [] →
        determineStatus policy [] errors = (ScanStatus.fail, 4)) ∧
    (∀ (findings : List Finding) (errors : List String), policy.strict = false →
        determineStatus policy findings errors = determineStatus policy findings []) := by
  constructor
  · intro errors hs he
    have hlen : 0 < errors.length := List.length_pos.mpr he
    unfold determineStatus
    rw [hs]
    cases policy.fail_on <;> cases policy.warn_on <;>
      simp [filterBySeverity, hlen]
  · intro findings errors hs
    rcases policy with ⟨fo, wo, st⟩
    simp only at hs
    subst hs
    simp [determineStatus]

/-- C8 witness: a strict policy with one accumulated error and no findings
fails with exit code 4. -/
theorem determineStatus_strict_witness :
    determineStatus { fail_on := some .high, warn_on := some .medium, strict := true }
      [] ["Failed to read hooks.json: unexpected token"] = (ScanStatus.fail, 4) :=
  (determineStatus_strict
      { fail_on := some .high, warn_on := some .medium, strict := true }).1
    ["Failed to read hooks.json: unexpected token"] rfl (by decide)

/-- C6: creating a baseline from a finding list and immediately filtering
the same list suppresses everything: empty filtered output, suppressed count
equal to the list length, zero new and zero fixed; and in general the
filtered output is exactly the current findings whose stable fingerprint is
not in the loaded baseline set. -/
theorem baseline_create_roundtrip :
    (∀ (now : String) (reason : Option String) (findings : List Finding),
      BaselineManager.filterFindings
          (some (BaselineManager.create now findings reason)) findings =
        ([], { newFindings := 0, suppressedFindings := findings.length,
               fixedFindings := 0 })) ∧
    (∀ (b : Baseline) (findings : List Finding),
      (BaselineManager.filterFindings (some b) findings).1 =
        findings.filter (fun f =>
          !((b.findings.map (·.fingerprint)).contains f.fingerprints.stable))) := by
  constructor
  · intro now reason findings
    have hfp : ((BaselineManager.create now findings reason).findings.map
        (·.fingerprint)) = findings.map (·.fingerprints.stable) := by
      simp [BaselineManager.create, BaselineManager.findingToBaseline,
        List.map_map, Function.comp]
    have hmem : ∀ f ∈ findings,
        ((BaselineManager.create now findings reason).findings.map
          (·.fingerprint)).contains f.fingerprints.stable = true := by
      intro f hf
      have hm : f.fingerprints.stable ∈ findings.map (·.fingerprints.stable) :=
        List.mem_map_of_mem _ hf
      simpa [hfp] using hm
    have hfiltered : findings.filter (fun f =>
        !(((BaselineManager.create now findings reason).findings.map
          (·.fingerprint)).contains f.fingerprints.stable)) = [] := by
      rw [List.filter_eq_nil_iff]
      intro f hf
      simp only [hmem f hf, Bool.not_true]
      decide
    have hmatched : (findings.map (·.fingerprints.stable)).filter
        (fun fp => ((BaselineManager.create now findings reason).findings.map
          (·.fingerprint)).contains fp) = findings.map (·.fingerprints.stable) := by
      rw [List.filter_eq_self]
      intro fp hfp'
      rcases List.mem_map.mp hfp' with ⟨f, hf, rfl⟩
      exact hmem f hf
    have hfixed : ((BaselineManager.create now findings reason).findings.filter
        (fun bf => !((findings.map (·.fingerprints.stable)).contains
          bf.fingerprint))) = [] := by
      rw [List.filter_eq_nil_iff]
      intro bf hbf
      simp only [BaselineManager.create, List.mem_map] at hbf
      rcases hbf with ⟨f, hf, rfl⟩
      have hm : f.fingerprints.stable ∈ findings.map (·.fingerprints.stable) :=
        List.mem_map_of_mem _ hf
      simpa [BaselineManager.findingToBaseline] using hm
    simp only [BaselineManager.filterFindings, hfiltered, hmatched, hfixed]
    simp [hfiltered]
  · intro b findings
    rfl

/-! ## C5: the diff engine is growth-only -/

theorem ite_singleton_eq_nil {α : Type} {c : Prop} [Decidable c] (x : α) :
    ((if c then [x] else []) = []) ↔ ¬ c := by
  split <;> simp [*]

theorem detectCapabilityChanges_eq_nil_iff (base target : CapabilitySummary) :
    detectCapabilityChanges base target = [] ↔ ¬ growthCondition base target := by
  have h1 : (!base.shell_exec.enabled && target.shell_exec.enabled) = true ↔
      base.shell_exec.enabled = false ∧ target.shell_exec.enabled = true := by
    simp [Bool.and_eq_true, Bool.not_eq_true']
  have h2 : (!base.shell_exec.dynamic_detected && target.shell_exec.dynamic_detected) = true ↔
      base.shell_exec.dynamic_detected = false ∧ target.shell_exec.dynamic_detected = true := by
    simp [Bool.and_eq_true, Bool.not_eq_true']
  have h3 : (!base.network.outbound && target.network.outbound) = true ↔
      base.network.outbound = false ∧ target.network.outbound = true := by
    simp [Bool.and_eq_true, Bool.not_eq_true']
  have h4 : (!base.network.inbound && target.network.inbound) = true ↔
      base.network.inbound = false ∧ target.network.inbound = true := by
    simp [Bool.and_eq_true, Bool.not_eq_true']
  have h5 : (!base.network.fetches_executable && target.network.fetches_executable) = true ↔
      base.network.fetches_executable = false ∧ target.network.fetches_executable = true := by
    simp [Bool.and_eq_true, Bool.not_eq_true']
  have h6 : (!base.contexts.has_hooks && target.contexts.has_hooks) = true ↔
      base.contexts.has_hooks = false ∧ target.contexts.has_hooks = true := by
    simp [Bool.and_eq_true, Bool.not_eq_true']
  have h7 : (!base.contexts.has_ci_context && target.contexts.has_ci_context) = true ↔
      base.contexts.has_ci_context = false ∧ target.contexts.has_ci_context = true := by
    simp [Bool.and_eq_true, Bool.not_eq_true']
  have h8 : (target.filesystem.touches_sensitive_paths.filter
        (fun p => !(base.filesystem.touches_sensitive_paths.contains p))).length > 0 ↔
      ∃ p ∈ target.filesystem.touches_sensitive_paths,
        p ∉ base.filesystem.touches_sensitive_paths := by
    rw [gt_iff_lt, List.length_pos]
    constructor
    · intro hne
      rcases List.exists_mem_of_ne_nil _ hne with ⟨p, hp⟩
      rcases List.mem_filter.mp hp with ⟨hmem, hpred⟩
      refine ⟨p, hmem, ?_⟩
      simpa using hpred
    · rintro ⟨p, hmem, hnot⟩
      intro hnil
      have := List.filter_eq_nil_iff.mp hnil p hmem
      simp [hnot] at this
  have h9 : (target.filesystem.write.any (fun w => broadPatterns.contains w) &&
        !(base.filesystem.write.any (fun w => broadPatterns.contains w))) = true ↔
      target.filesystem.write.any (fun w => broadPatterns.contains w) = true ∧
        base.filesystem.write.any (fun w => broadPatterns.contains w) = false := by
    simp [Bool.and_eq_true, Bool.not_eq_true']
  have h10 : (target.secrets.env_vars_referenced.filter
        (fun v => !(base.secrets.env_vars_referenced.contains v))).length > 0 ↔
      ∃ v ∈ target.secrets.env_vars_referenced,
        v ∉ base.secrets.env_vars_referenced := by
    rw [gt_iff_lt, List.length_pos]
    constructor
    · intro hne
      rcases List.exists_mem_of_ne_nil _ hne with ⟨v, hv⟩
      rcases List.mem_filter.mp hv with ⟨hmem, hpred⟩
      refine ⟨v, hmem, ?_⟩
      simpa using hpred
    · rintro ⟨v, hmem, hnot⟩
      intro hnil
      have := List.filter_eq_nil_iff.mp hnil v hmem
      simp [hnot] at this
  have h11 : (!base.secrets.propagation_detected && target.secrets.propagation_detected) = true ↔
      base.secrets.propagation_detected = false ∧ target.secrets.propagation_detected = true := by
    simp [Bool.and_eq_true, Bool.not_eq_true']
  constructor
  · intro hnil
    rw [growthCondition]
    rintro (g | g | g | g | g | g | g | g | g | g | g)
    · have c := h1.mpr g
      simp [detectCapabilityChanges, c] at hnil
    · have c := h2.mpr g
      simp [detectCapabilityChanges, c] at hnil
    · have c := h3.mpr g
      simp [detectCapabilityChanges, c] at hnil
    · have c := h4.mpr g
      simp [detectCapabilityChanges, c] at hnil
    · have c := h5.mpr g
      simp [detectCapabilityChanges, c] at hnil
    · have c := h6.mpr g
      simp [detectCapabilityChanges, c] at hnil
    · have c := h7.mpr g
      simp [detectCapabilityChanges, c] at hnil
    · rcases g with ⟨p, hm, hn⟩
      simp [detectCapabilityChanges] at hnil
      exact hn (hnil.2.2.2.2.2.2.2.1 p hm)
    · obtain ⟨ht, hb⟩ := g
      simp [detectCapabilityChanges] at hnil
      rcases List.any_eq_true.mp ht with ⟨w, hwmem, hwbroad⟩
      have hbroad : w ∈ broadPatterns := by simpa using hwbroad
      rcases hnil.2.2.2.2.2.2.2.2.1 w hwmem hbroad with ⟨y, hymem, hybroad⟩
      have hany : base.filesystem.write.any (fun w => broadPatterns.contains w) = true :=
        List.any_eq_true.mpr ⟨y, hymem, by simpa using hybroad⟩
      rw [hb] at hany
      exact Bool.false_ne_true hany
    · rcases g with ⟨v, hm, hn⟩
      simp [detectCapabilityChanges] at hnil
      exact hn (hnil.2.2.2.2.2.2.2.2.2.1 v hm)
    · have c := h11.mpr g
      simp [detectCapabilityChanges, c] at hnil
  · intro hng
    rw [growthCondition] at hng
    simp only [not_or] at hng
    obtain ⟨n1, n2, n3, n4, n5, n6, n7, n8, n9, n10, n11⟩ := hng
    have c1 := fun hc => n1 (h1.mp hc)
    have c2 := fun hc => n2 (h2.mp hc)
    have c3 := fun hc => n3 (h3.mp hc)
    have c4 := fun hc => n4 (h4.mp hc)
    have c5 := fun hc => n5 (h5.mp hc)
    have c6 := fun hc => n6 (h6.mp hc)
    have c7 := fun hc => n7 (h7.mp hc)
    have c8 := fun hc => n8 (h8.mp hc)
    have c9 := fun hc => n9 (h9.mp hc)
    have c10 := fun hc => n10 (h10.mp hc)
    have c11 := fun hc => n11 (h11.mp hc)
    simp only [detectCapabilityChanges, if_neg c1, if_neg c2, if_neg c3, if_neg c4,
      if_neg c5, if_neg c6, if_neg c7, if_neg c8, if_neg c9, if_neg c10, if_neg c11,
      List.append_nil, List.nil_append]

/-- C5: detectCapabilityChanges emits changes exactly when one of the
false-to-true / set-growth trigger conditions holds, emits nothing when
target capabilities shrink relative to base, and on the concrete scenario
base shell off / target shell on emits exactly one capability_expansion
change while the reverse transition emits none. -/
theorem detectCapabilityChanges_growth_only :
    (∀ base target : CapabilitySummary,
      detectCapabilityChanges base target ≠ [] ↔ growthCondition base target) ∧
    (∀ base target : CapabilitySummary,
      Shrinks base target → detectCapabilityChanges base target = []) ∧
    detectCapabilityChanges emptyCapabilitySummary
        { emptyCapabilitySummary with shell_exec.enabled := true } =
      [{ type := "capability_expansion", severity := .high,
         message := "shell_exec.enabled: false → true" }] ∧
    detectCapabilityChanges { emptyCapabilitySummary with shell_exec.enabled := true }
        emptyCapabilitySummary = [] := by
  refine ⟨fun base target => ?_, fun base target hsh => ?_, by decide, by decide⟩
  · rw [Ne, detectCapabilityChanges_eq_nil_iff, not_not]
  · rw [detectCapabilityChanges_eq_nil_iff base target]
    obtain ⟨s1, s2, s3, s4, s5, s6, s7, s8, s9, s10, s11⟩ := hsh
    rintro (⟨hb, ht⟩ | ⟨hb, ht⟩ | ⟨hb, ht⟩ | ⟨hb, ht⟩ | ⟨hb, ht⟩ | ⟨hb, ht⟩ |
      ⟨hb, ht⟩ | ⟨p, hmem, hnot⟩ | ⟨ht, hb⟩ | ⟨v, hmem, hnot⟩ | ⟨hb, ht⟩)
    · exact absurd (s1 ht) (by simp [hb])
    · exact absurd (s2 ht) (by simp [hb])
    · exact absurd (s3 ht) (by simp [hb])
    · exact absurd (s4 ht) (by simp [hb])
    · exact absurd (s5 ht) (by simp [hb])
    · exact absurd (s6 ht) (by simp [hb])
    · exact absurd (s7 ht) (by simp [hb])
    · exact absurd (s8 p hmem) hnot
    · refine absurd (s9 ht) ?_
      rw [hb]
      exact Bool.false_ne_true
    · exact absurd (s10 v hmem) hnot
    · exact absurd (s11 ht) (by simp [hb])

/-- C5 witness: the shrink implication applied at a concrete pair (equal
summaries shrink weakly, and indeed produce no change). -/
theorem detectCapabilityChanges_growth_only_witness :
    detectCapabilityChanges emptyCapabilitySummary emptyCapabilitySummary = [] :=
  detectCapabilityChanges_growth_only.2.1 emptyCapabilitySummary emptyCapabilitySummary
    (by unfold Shrinks
        exact ⟨id, id, id, id, id, id, id, fun p hp => hp, id, fun v hv => hv, id⟩)

/-! ## C2: evaluateAll output ordering -/

theorem severityOrder_inj {s t : Severity} : severityOrder s = severityOrder t ↔ s = t := by
  cases s <;> cases t <;> decide

theorem codepointCompare_le_iff (a b : String) : codepointCompare a b ≤ 0 ↔ a ≤ b := by
  unfold codepointCompare
  split_ifs with h1 h2
  · exact iff_of_true (by norm_num) (le_of_lt h1)
  · exact iff_of_false (by norm_num) (not_le.mpr h2)
  · exact iff_of_true le_rfl (le_of_eq (le_antisymm (not_lt.mp h2) (not_lt.mp h1)))

theorem codepointCompare_lt_iff (a b : String) : codepointCompare a b < 0 ↔ a < b := by
  unfold codepointCompare
  split_ifs with h1 h2
  · exact iff_of_true (by norm_num) h1
  · exact iff_of_false (by norm_num) (lt_asymm h2)
  · exact iff_of_false (by norm_num) h1

theorem codepointCompare_eq_zero_iff (a b : String) : codepointCompare a b = 0 ↔ a = b := by
  unfold codepointCompare
  split_ifs with h1 h2
  · exact iff_of_false (by norm_num) (ne_of_lt h1)
  · exact iff_of_false (by norm_num) (ne_of_gt h2)
  · exact iff_of_true rfl (le_antisymm (not_lt.mp h2) (not_lt.mp h1))

/-- The concrete codepoint comparator satisfies the ECMAScript consistency
requirements, so it can instantiate the ordering theorem. -/
theorem codepointCompare_consistent : ConsistentComparator codepointCompare := by
  refine ⟨?_, ?_, ?_, ?_⟩
  · intro a b c hab hbc
    rw [codepointCompare_le_iff] at hab hbc ⊢
    exact le_trans hab hbc
  · intro a b hab
    rw [codepointCompare_lt_iff] at hab
    rcases lt_trichotomy (codepointCompare b a) 0 with h | h | h
    · exact absurd ((codepointCompare_lt_iff b a).mp h) (lt_asymm hab)
    · exact absurd ((codepointCompare_eq_zero_iff b a).mp h) (ne_of_gt hab)
    · exact h
  · intro a b hab
    have h1 : ¬ a < b := fun hl =>
      absurd ((codepointCompare_lt_iff a b).mpr hl) (by omega)
    have h2 : ¬ a = b := fun he =>
      absurd ((codepointCompare_eq_zero_iff a b).mpr he) (by omega)
    exact (codepointCompare_lt_iff b a).mpr
      (((lt_trichotomy a b).resolve_left h1).resolve_left h2)
  · intro a b hab
    have he := (codepointCompare_eq_zero_iff a b).mp hab
    exact (codepointCompare_eq_zero_iff b a).mpr he.symm

theorem findingLEWith_iff (localeCompare : String → String → Int) (a b : Finding) :
    findingLEWith localeCompare a b = true ↔ specLEWith localeCompare a b := by
  simp only [findingLEWith, compareFindingsWith, specLEWith, decide_eq_true_eq]
  rcases Nat.lt_trichotomy (severityOrder a.severity) (severityOrder b.severity) with h | h | h
  · rw [if_pos (show ¬ ((severityOrder a.severity : ℤ) -
      (severityOrder b.severity : ℤ) = 0) by omega)]
    exact ⟨fun _ => Or.inl h, fun _ => by omega⟩
  · rw [if_neg (not_not_intro (show (severityOrder a.severity : ℤ) -
      (severityOrder b.severity : ℤ) = 0 by omega))]
    have hsev : a.severity = b.severity := severityOrder_inj.mp h
    rcases lt_trichotomy (localeCompare a.location.path b.location.path) 0 with hp | hp | hp
    · rw [if_pos (show ¬ localeCompare a.location.path b.location.path = 0 by omega)]
      exact ⟨fun _ => Or.inr ⟨hsev, Or.inl hp⟩, fun _ => by omega⟩
    · rw [if_neg (not_not_intro hp)]
      rcases Nat.lt_trichotomy a.location.start_line b.location.start_line with hl | hl | hl
      · rw [if_pos (show ¬ ((a.location.start_line : ℤ) -
          (b.location.start_line : ℤ) = 0) by omega)]
        exact ⟨fun _ => Or.inr ⟨hsev, Or.inr ⟨hp, Or.inl hl⟩⟩, fun _ => by omega⟩
      · rw [if_neg (not_not_intro (show (a.location.start_line : ℤ) -
          (b.location.start_line : ℤ) = 0 by omega))]
        constructor
        · intro hle
          exact Or.inr ⟨hsev, Or.inr ⟨hp, Or.inr ⟨hl, hle⟩⟩⟩
        · rintro (hx | ⟨_, hx | ⟨_, hx | ⟨_, hx⟩⟩⟩)
          · omega
          · omega
          · omega
          · exact hx
      · rw [if_pos (show ¬ ((a.location.start_line : ℤ) -
          (b.location.start_line : ℤ) = 0) by omega)]
        constructor
        · intro hle
          exact absurd hle (by omega)
        · rintro (hx | ⟨_, hx | ⟨_, hx | ⟨hx, _⟩⟩⟩) <;> omega
    · rw [if_pos (show ¬ localeCompare a.location.path b.location.path = 0 by omega)]
      constructor
      · intro hle
        exact absurd hle (by omega)
      · rintro (hx | ⟨_, hx | ⟨hx, _⟩⟩) <;> omega
  · rw [if_pos (show ¬ ((severityOrder a.severity : ℤ) -
      (severityOrder b.severity : ℤ) = 0) by omega)]
    constructor
    · intro hle
      exact absurd hle (by omega)
    · rintro (hx | ⟨hx, _⟩)
      · omega
      · have := congrArg severityOrder hx
        omega

theorem specLEWith_trans (localeCompare : String → String → Int)
    (hlc : ConsistentComparator localeCompare) :
    ∀ a b c : Finding, specLEWith localeCompare a b → specLEWith localeCompare b c →
      specLEWith localeCompare a c := by
  obtain ⟨htrans, hltpos, hposlt, hzero⟩ := hlc
  have hltlt : ∀ x y z, localeCompare x y < 0 → localeCompare y z < 0 →
      localeCompare x z < 0 := by
    intro x y z hxy hyz
    have hle := htrans x y z (le_of_lt hxy) (le_of_lt hyz)
    rcases lt_or_eq_of_le hle with h | h
    · exact h
    · have hzx := hzero x z h
      have := htrans y z x (le_of_lt hyz) (le_of_eq hzx)
      have := hltpos x y hxy
      omega
  have hltzero : ∀ x y z, localeCompare x y < 0 → localeCompare y z = 0 →
      localeCompare x z < 0 := by
    intro x y z hxy hyz
    have hle := htrans x y z (le_of_lt hxy) (le_of_eq hyz)
    rcases lt_or_eq_of_le hle with h | h
    · exact h
    · have hzx := hzero x z h
      have := htrans y z x (le_of_eq hyz) (le_of_eq hzx)
      have := hltpos x y hxy
      omega
  have hzerolt : ∀ x y z, localeCompare x y = 0 → localeCompare y z < 0 →
      localeCompare x z < 0 := by
    intro x y z hxy hyz
    have hle := htrans x y z (le_of_eq hxy) (le_of_lt hyz)
    rcases lt_or_eq_of_le hle with h | h
    · exact h
    · have hzx := hzero x z h
      have := htrans z x y (le_of_eq hzx) (le_of_eq hxy)
      have := hltpos y z hyz
      omega
  have hzz : ∀ x y z, localeCompare x y = 0 → localeCompare y z = 0 →
      localeCompare x z = 0 := by
    intro x y z hxy hyz
    have hle := htrans x y z (le_of_eq hxy) (le_of_eq hyz)
    have hyx := hzero x y hxy
    have hzy := hzero y z hyz
    have hle' := htrans z y x (le_of_eq hzy) (le_of_eq hyx)
    rcases lt_or_eq_of_le hle with h | h
    · have := hltpos x z h
      omega
    · omega
  intro a b c hab hbc
  rcases hab with hs | ⟨hse, hp⟩
  · rcases hbc with hs' | ⟨hse', _⟩
    · exact Or.inl (lt_trans hs hs')
    · have := congrArg severityOrder hse'
      exact Or.inl (by omega)
  · rcases hbc with hs' | ⟨hse', hp'⟩
    · have := congrArg severityOrder hse
      exact Or.inl (by omega)
    · refine Or.inr ⟨hse.trans hse', ?_⟩
      rcases hp with hpl | ⟨hpe, hl⟩
      · rcases hp' with hpl' | ⟨hpe', _⟩
        · exact Or.inl (hltlt _ _ _ hpl hpl')
        · exact Or.inl (hltzero _ _ _ hpl hpe')
      · rcases hp' with hpl' | ⟨hpe', hl'⟩
        · exact Or.inl (hzerolt _ _ _ hpe hpl')
        · refine Or.inr ⟨hzz _ _ _ hpe hpe', ?_⟩
          rcases hl with hll | ⟨hle, hr⟩
          · rcases hl' with hll' | ⟨hle', _⟩
            · exact Or.inl (lt_trans hll hll')
            · exact Or.inl (by omega)
          · rcases hl' with hll' | ⟨hle', hr'⟩
            · exact Or.inl (by omega)
            · exact Or.inr ⟨hle.trans hle', htrans _ _ _ hr hr'⟩

theorem specLEWith_total (localeCompare : String → String → Int)
    (hlc : ConsistentComparator localeCompare) :
    ∀ a b : Finding, specLEWith localeCompare a b ∨ specLEWith localeCompare b a := by
  obtain ⟨htrans, hltpos, hposlt, hzero⟩ := hlc
  intro a b
  rcases Nat.lt_trichotomy (severityOrder a.severity) (severityOrder b.severity) with h | h | h
  · exact Or.inl (Or.inl h)
  · have hsev := severityOrder_inj.mp h
    rcases lt_trichotomy (localeCompare a.location.path b.location.path) 0 with hp | hp | hp
    · exact Or.inl (Or.inr ⟨hsev, Or.inl hp⟩)
    · have hp' := hzero _ _ hp
      rcases Nat.lt_trichotomy a.location.start_line b.location.start_line with hl | hl | hl
      · exact Or.inl (Or.inr ⟨hsev, Or.inr ⟨hp, Or.inl hl⟩⟩)
      · rcases le_or_lt (localeCompare a.rule_id b.rule_id) 0 with hr | hr
        · exact Or.inl (Or.inr ⟨hsev, Or.inr ⟨hp, Or.inr ⟨hl, hr⟩⟩⟩)
        · have hr' := hposlt _ _ hr
          exact Or.inr (Or.inr ⟨hsev.symm, Or.inr ⟨hp', Or.inr ⟨hl.symm, le_of_lt hr'⟩⟩⟩)
      · exact Or.inr (Or.inr ⟨hsev.symm, Or.inr ⟨hp', Or.inl hl⟩⟩)
    · have hp' := hposlt _ _ hp
      exact Or.inr (Or.inr ⟨hsev.symm, Or.inl hp'⟩)
  · exact Or.inr (Or.inl h)

/-- The concrete evaluateAll is the abstract pipeline instantiated at the
codepoint comparator. -/
theorem evaluateAll_eq_evaluateAllWith (engine : RuleEngine)
    (documents : List AgentDocument) (capabilitySummary : CapabilitySummary) :
    evaluateAll engine documents capabilitySummary =
      evaluateAllWith codepointCompare engine documents capabilitySummary := rfl

/-- C2: for every realization of the runtime's localeCompare satisfying the
ECMAScript consistent-comparator requirements (as ICU collation does), the
finding list returned by evaluateAll is sorted by severity (high before
medium before low), then by document path in the collation's lexical order,
then by start line ascending, then by rule id in the collation's lexical
order. -/
theorem evaluateAllWith_sorted (localeCompare : String → String → Int)
    (hlc : ConsistentComparator localeCompare) (engine : RuleEngine)
    (documents : List AgentDocument) (capabilitySummary : CapabilitySummary) :
    List.Pairwise (specLEWith localeCompare)
      (evaluateAllWith localeCompare engine documents capabilitySummary) := by
  have htrans : ∀ a b c : Finding, findingLEWith localeCompare a b = true →
      findingLEWith localeCompare b c = true → findingLEWith localeCompare a c = true := by
    intro a b c hab hbc
    exact (findingLEWith_iff localeCompare a c).mpr
      (specLEWith_trans localeCompare hlc a b c
        ((findingLEWith_iff localeCompare a b).mp hab)
        ((findingLEWith_iff localeCompare b c).mp hbc))
  have htotal : ∀ a b : Finding,
      (findingLEWith localeCompare a b || findingLEWith localeCompare b a) = true := by
    intro a b
    rcases specLEWith_total localeCompare hlc a b with h | h
    · have := (findingLEWith_iff localeCompare a b).mpr h
      simp [this]
    · have := (findingLEWith_iff localeCompare b a).mpr h
      simp [this]
  simp only [evaluateAllWith, sortFindingsWith]
  exact (List.sorted_mergeSort htrans htotal _).imp
    (fun hab => (findingLEWith_iff localeCompare _ _).mp hab)

/-- C2 witness: the ordering theorem applied at a concrete consistent
comparator (the codepoint instance) and a concrete engine and document. -/
theorem evaluateAllWith_sorted_witness :
    List.Pairwise (specLEWith codepointCompare)
      (evaluateAllWith codepointCompare exampleEngine [exampleShellDoc]
        emptyCapabilitySummary) :=
  evaluateAllWith_sorted codepointCompare codepointCompare_consistent exampleEngine
    [exampleShellDoc] emptyCapabilitySummary

/-! ## C3: the confidence gate and the override-before-filter order -/

theorem foldl_append_flatMap {β γ : Type} (g : β → List γ) :
    ∀ (l : List β) (init : List γ),
      l.foldl (fun acc x => acc ++ g x) init = init ++ l.flatMap g := by
  intro l
  induction l with
  | nil => intro init; simp
  | cons x xs ih =>
    intro init
    rw [List.foldl_cons, ih, List.flatMap_cons, List.append_assoc]

theorem foldl_override_filter (opts : RuleEngineOptions) (ruleId : String) :
    ∀ (l : List Finding) (init : List Finding),
      l.foldl (fun findings finding =>
        let finding :=
          match opts.severityOverrides.lookup ruleId with
          | some sev => { finding with severity := sev }
          | none => finding
        if opts.minConfidence ≤ finding.confidence then findings ++ [finding]
        else findings) init
      = init ++ (l.map (applyOverride opts ruleId)).filter
          (fun f => decide (opts.minConfidence ≤ f.confidence)) := by
  intro l
  induction l with
  | nil => intro init; simp
  | cons f fs ih =>
    intro init
    rw [List.foldl_cons, ih]
    rcases hlk : opts.severityOverrides.lookup ruleId with _ | sev <;>
      simp only [hlk, applyOverride, List.map_cons, List.filter_cons] <;>
      by_cases hc : opts.minConfidence ≤ f.confidence <;>
      simp [hc, List.append_assoc]

theorem foldl_rules_eq (engine : RuleEngine) (ctx : RuleContext) :
    ∀ (rules : List Rule) (init : List Finding),
      rules.foldl (fun findings rule =>
        if engine.options.disabledRules.contains rule.definition.id then findings
        else
          (rule.evaluate ctx).foldl
            (fun findings finding =>
              let finding :=
                match engine.options.severityOverrides.lookup rule.definition.id with
                | some sev => { finding with severity := sev }
                | none => finding
              if engine.options.minConfidence ≤ finding.confidence then
                findings ++ [finding]
              else findings)
            findings) init
      = init ++ (rules.filter
          (fun r => !(engine.options.disabledRules.contains r.definition.id))).flatMap
          (fun r => ((r.evaluate ctx).map (applyOverride engine.options r.definition.id)).filter
            (fun f => decide (engine.options.minConfidence ≤ f.confidence))) := by
  intro rules
  induction rules with
  | nil => intro init; simp
  | cons r rs ih =>
    intro init
    rw [List.foldl_cons]
    by_cases hd : engine.options.disabledRules.contains r.definition.id
    · simp only [hd, if_pos, List.filter_cons, Bool.not_true, ih]
      simp [hd]
    · simp only [hd, if_neg, Bool.not_false, List.filter_cons]
      rw [foldl_override_filter engine.options r.definition.id (r.evaluate ctx) init, ih]
      simp [hd, List.flatMap_cons, List.append_assoc]

theorem evaluateDocument_eq (engine : RuleEngine) (document : AgentDocument)
    (allDocuments : List AgentDocument) (capabilitySummary : CapabilitySummary) :
    evaluateDocument engine document allDocuments capabilitySummary =
      (engine.rules.filter
          (fun r => !(engine.options.disabledRules.contains r.definition.id))).flatMap
        (fun r => ((r.evaluate
            { document := document
              allDocuments := allDocuments
              capabilitySummary := capabilitySummary
              minConfidence := engine.options.minConfidence }).map
          (applyOverride engine.options r.definition.id)).filter
            (fun f => decide (engine.options.minConfidence ≤ f.confidence))) := by
  simp only [evaluateDocument]
  rw [foldl_rules_eq]
  simp

/-- C3: no finding with confidence strictly below the configured minimum
appears in the final sorted output, and per document the severity override
is applied to each returned finding before the confidence filter runs. -/
theorem confidence_gate (engine : RuleEngine) (documents : List AgentDocument)
    (capabilitySummary : CapabilitySummary) :
    (∀ f ∈ evaluateAll engine documents capabilitySummary,
        engine.options.minConfidence ≤ f.confidence) ∧
    (∀ (document : AgentDocument) (allDocuments : List AgentDocument),
        evaluateDocument engine document allDocuments capabilitySummary =
          (engine.rules.filter
              (fun r => !(engine.options.disabledRules.contains r.definition.id))).flatMap
            (fun r => ((r.evaluate
                { document := document
                  allDocuments := allDocuments
                  capabilitySummary := capabilitySummary
                  minConfidence := engine.options.minConfidence }).map
              (applyOverride engine.options r.definition.id)).filter
                (fun f => decide (engine.options.minConfidence ≤ f.confidence)))) := by
  constructor
  · intro f hf
    simp only [evaluateAll, sortFindings, sortFindingsWith] at hf
    rw [List.mem_mergeSort, foldl_append_flatMap] at hf
    simp only [List.nil_append, List.mem_flatMap] at hf
    rcases hf with ⟨d, _, hf⟩
    rw [evaluateDocument_eq] at hf
    simp only [List.mem_flatMap, List.mem_filter, decide_eq_true_eq] at hf
    rcases hf with ⟨r, _, _, hconf⟩
    exact hconf
  · intro d ad
    exact evaluateDocument_eq engine d ad capabilitySummary

/-! ## C4: capability aggregation idempotence -/

theorem capabilitySummary_ext {s t : CapabilitySummary}
    (h1 : s.filesystem = t.filesystem) (h2 : s.shell_exec = t.shell_exec)
    (h3 : s.network = t.network) (h4 : s.secrets = t.secrets)
    (h5 : s.git = t.git) (h6 : s.contexts = t.contexts) : s = t := by
  cases s
  cases t
  simp_all

theorem filesystemSummary_ext {s t : FilesystemSummary}
    (h1 : s.read = t.read) (h2 : s.write = t.write)
    (h3 : s.touches_sensitive_paths = t.touches_sensitive_paths) : s = t := by
  cases s
  cases t
  simp_all

theorem shellExecSummary_ext {s t : ShellExecSummary}
    (h1 : s.enabled = t.enabled) (h2 : s.dynamic_detected = t.dynamic_detected)
    (h3 : s.examples = t.examples) : s = t := by
  cases s
  cases t
  simp_all

theorem networkSummary_ext {s t : NetworkSummary}
    (h1 : s.outbound = t.outbound) (h2 : s.inbound = t.inbound)
    (h3 : s.allowed_domains = t.allowed_domains)
    (h4 : s.fetches_executable = t.fetches_executable) : s = t := by
  cases s
  cases t
  simp_all

theorem secretsSummary_ext {s t : SecretsSummary}
    (h1 : s.env_vars_referenced = t.env_vars_referenced)
    (h2 : s.files_referenced = t.files_referenced)
    (h3 : s.propagation_detected = t.propagation_detected) : s = t := by
  cases s
  cases t
  simp_all

theorem take_chain {α : Type} (l₁ l₂ : List α) (m : ℕ) :
    l₁.take m ++ l₂.take (m - (l₁.take m).length) = (l₁ ++ l₂).take m := by
  rw [List.take_append_eq_append_take]
  congr 1
  congr 1
  rw [List.length_take]
  rcases Nat.le_total m l₁.length with h | h
  · rw [Nat.min_eq_left h]
    omega
  · rw [Nat.min_eq_right h]

theorem mem_jsDedup {α : Type} [DecidableEq α] {a : α} :
    ∀ {l : List α}, a ∈ jsDedup l ↔ a ∈ l := by
  intro l
  induction l with
  | nil => simp [jsDedup]
  | cons x xs ih =>
    simp only [jsDedup, List.mem_cons, List.mem_filter, ih, decide_eq_true_eq]
    by_cases hax : a = x <;> simp [hax]

theorem jsDedup_append {α : Type} [DecidableEq α] :
    ∀ (l₁ l₂ : List α), jsDedup (l₁ ++ l₂) =
      jsDedup l₁ ++ (jsDedup l₂).filter (fun b => decide (b ∉ l₁)) := by
  intro l₁
  induction l₁ with
  | nil =>
    intro l₂
    simp [jsDedup]
  | cons x xs ih =>
    intro l₂
    simp only [List.cons_append, List.append_eq, jsDedup, ih, List.filter_append,
      List.filter_filter, List.cons.injEq, true_and]
    congr 1
    apply List.filter_congr
    intro b _
    simp [List.mem_cons, not_or, Bool.and_comm]

theorem jsDedup_append_self {α : Type} [DecidableEq α] (l : List α) :
    jsDedup (l ++ l) = jsDedup l := by
  rw [jsDedup_append]
  have h : (jsDedup l).filter (fun b => decide (b ∉ l)) = [] := by
    rw [List.filter_eq_nil_iff]
    intro b hb
    simp [mem_jsDedup.mp hb]
  rw [h, List.append_nil]

theorem processActionSecrets_eq (s : CapabilitySummary) (a : Action) :
    processActionSecrets s a =
      { s with secrets :=
          { env_vars_referenced := s.secrets.env_vars_referenced ++ actionEnvVars a
            files_referenced := s.secrets.files_referenced ++ actionFiles a
            propagation_detected := s.secrets.propagation_detected || actionPropagation a } } := by
  rcases hsec : a.secrets with _ | ⟨ev, fl, pr⟩
  · simp [processActionSecrets, actionEnvVars, actionFiles, actionPropagation, hsec]
  · rcases ev with _ | vars <;> rcases fl with _ | files <;> rcases pr with _ | targets <;>
      simp [processActionSecrets, actionEnvVars, actionFiles, actionPropagation, hsec] <;>
      split_ifs with h <;> simp [h]

theorem processActionType_eq (s : CapabilitySummary) (a : Action) :
    processActionType s a =
      { s with
        filesystem :=
          { read := s.filesystem.read ++ actionReadPaths a
            write := s.filesystem.write ++ actionWritePaths a
            touches_sensitive_paths :=
              s.filesystem.touches_sensitive_paths ++ actionSensitivePaths a }
        shell_exec :=
          { enabled := s.shell_exec.enabled || actionShellEnabled a
            dynamic_detected := s.shell_exec.dynamic_detected || actionDynamic a
            examples := s.shell_exec.examples ++
              (actionCmds a).take (5 - s.shell_exec.examples.length) }
        network :=
          { outbound := s.network.outbound || actionOutbound a
            inbound := s.network.inbound || actionInbound a
            allowed_domains := s.network.allowed_domains ++ actionDomains a
            fetches_executable := s.network.fetches_executable || actionFetchesExec a }
        git := { ops := s.git.ops ++ actionGitOps a } } := by
  cases ha : a.type
  case shell_exec =>
    rcases hsh : a.shell with _ | ⟨cmd, dyn⟩
    · simp [processActionType, actionReadPaths, actionWritePaths, actionSensitivePaths,
        actionDomains, actionGitOps, actionCmds, actionShellEnabled, actionDynamic,
        actionOutbound, actionInbound, actionFetchesExec, ha, hsh]
    · rcases cmd with _ | c
      · by_cases hd : dyn.getD false <;>
          simp [processActionType, actionReadPaths, actionWritePaths,
            actionSensitivePaths, actionDomains, actionGitOps, actionCmds,
            actionShellEnabled, actionDynamic, actionOutbound, actionInbound,
            actionFetchesExec, ha, hsh, hd]
      · by_cases hc : c = ""
        · by_cases hd : dyn.getD false <;>
            simp [processActionType, actionReadPaths, actionWritePaths,
              actionSensitivePaths, actionDomains, actionGitOps, actionCmds,
              actionShellEnabled, actionDynamic, actionOutbound, actionInbound,
              actionFetchesExec, ha, hsh, hd, hc]
        · by_cases hlen : s.shell_exec.examples.length < 5
          · have ht : List.take (5 - s.shell_exec.examples.length) [c] = [c] :=
              List.take_of_length_le (by simp; omega)
            by_cases hd : dyn.getD false <;>
              simp [processActionType, actionReadPaths, actionWritePaths,
                actionSensitivePaths, actionDomains, actionGitOps, actionCmds,
                actionShellEnabled, actionDynamic, actionOutbound, actionInbound,
                actionFetchesExec, ha, hsh, hd, hc, hlen, ht]
          · have h0 : 5 - s.shell_exec.examples.length = 0 := by omega
            by_cases hd : dyn.getD false <;>
              simp [processActionType, actionReadPaths, actionWritePaths,
                actionSensitivePaths, actionDomains, actionGitOps, actionCmds,
                actionShellEnabled, actionDynamic, actionOutbound, actionInbound,
                actionFetchesExec, ha, hsh, hd, hc, hlen, h0]
  case network_call =>
    rcases hn : a.network with _ | ⟨dir, doms, fex⟩
    · simp [processActionType, actionReadPaths, actionWritePaths, actionSensitivePaths,
        actionDomains, actionGitOps, actionCmds, actionShellEnabled, actionDynamic,
        actionOutbound, actionInbound, actionFetchesExec, ha, hn]
    · rcases doms with _ | ds <;> by_cases hf : fex.getD false <;> cases dir <;>
        simp [processActionType, actionReadPaths, actionWritePaths,
          actionSensitivePaths, actionDomains, actionGitOps, actionCmds,
          actionShellEnabled, actionDynamic, actionOutbound, actionInbound,
          actionFetchesExec, ha, hn, hf]
  case file_write =>
    rcases hf : a.filesystem with _ | ⟨op, paths, sens⟩
    · simp [processActionType, actionReadPaths, actionWritePaths, actionSensitivePaths,
        actionDomains, actionGitOps, actionCmds, actionShellEnabled, actionDynamic,
        actionOutbound, actionInbound, actionFetchesExec, ha, hf]
    · rcases sens with _ | sp <;>
        simp [processActionType, actionReadPaths, actionWritePaths,
          actionSensitivePaths, actionDomains, actionGitOps, actionCmds,
          actionShellEnabled, actionDynamic, actionOutbound, actionInbound,
          actionFetchesExec, ha, hf]
  case file_read =>
    rcases hf : a.filesystem with _ | ⟨op, paths, sens⟩ <;>
      simp [processActionType, actionReadPaths, actionWritePaths, actionSensitivePaths,
        actionDomains, actionGitOps, actionCmds, actionShellEnabled, actionDynamic,
        actionOutbound, actionInbound, actionFetchesExec, ha, hf]
  case git_operation =>
    rcases hg : a.git with _ | ⟨op⟩ <;>
      simp [processActionType, actionReadPaths, actionWritePaths, actionSensitivePaths,
        actionDomains, actionGitOps, actionCmds, actionShellEnabled, actionDynamic,
        actionOutbound, actionInbound, actionFetchesExec, ha, hg]
  case tool_integration =>
    simp [processActionType, actionReadPaths, actionWritePaths, actionSensitivePaths,
      actionDomains, actionGitOps, actionCmds, actionShellEnabled, actionDynamic,
      actionOutbound, actionInbound, actionFetchesExec, ha]
  case unknown =>
    simp [processActionType, actionReadPaths, actionWritePaths, actionSensitivePaths,
      actionDomains, actionGitOps, actionCmds, actionShellEnabled, actionDynamic,
      actionOutbound, actionInbound, actionFetchesExec, ha]

theorem processAction_eq_step (s : CapabilitySummary) (a : Action) :
    processAction s a = stepSummary s a := by
  unfold processAction
  rw [processActionType_eq, processActionSecrets_eq]
  simp [stepSummary]

theorem foldl_processAction_eq (as : List Action) : ∀ s : CapabilitySummary,
    as.foldl processAction s =
      { filesystem :=
          { read := s.filesystem.read ++ as.flatMap actionReadPaths
            write := s.filesystem.write ++ as.flatMap actionWritePaths
            touches_sensitive_paths :=
              s.filesystem.touches_sensitive_paths ++ as.flatMap actionSensitivePaths }
        shell_exec :=
          { enabled := s.shell_exec.enabled || as.any actionShellEnabled
            dynamic_detected := s.shell_exec.dynamic_detected || as.any actionDynamic
            examples := s.shell_exec.examples ++
              (as.flatMap actionCmds).take (5 - s.shell_exec.examples.length) }
        network :=
          { outbound := s.network.outbound || as.any actionOutbound
            inbound := s.network.inbound || as.any actionInbound
            allowed_domains := s.network.allowed_domains ++ as.flatMap actionDomains
            fetches_executable := s.network.fetches_executable || as.any actionFetchesExec }
        secrets :=
          { env_vars_referenced := s.secrets.env_vars_referenced ++ as.flatMap actionEnvVars
            files_referenced := s.secrets.files_referenced ++ as.flatMap actionFiles
            propagation_detected := s.secrets.propagation_detected || as.any actionPropagation }
        git := { ops := s.git.ops ++ as.flatMap actionGitOps }
        contexts := s.contexts } := by
  induction as with
  | nil =>
    intro s
    simp
  | cons a as ih =>
    intro s
    rw [List.foldl_cons, processAction_eq_step, ih (stepSummary s a)]
    refine capabilitySummary_ext ?_ ?_ ?_ ?_ ?_ ?_
    · refine filesystemSummary_ext ?_ ?_ ?_ <;>
        simp [stepSummary, List.flatMap_cons, List.append_assoc]
    · refine shellExecSummary_ext ?_ ?_ ?_
      · simp [stepSummary, List.any_cons, Bool.or_assoc]
      · simp [stepSummary, List.any_cons, Bool.or_assoc]
      · simp only [stepSummary]
        rw [List.flatMap_cons, List.append_assoc, List.length_append]
        congr 1
        have hidx : 5 - (s.shell_exec.examples.length +
            ((actionCmds a).take (5 - s.shell_exec.examples.length)).length) =
            (5 - s.shell_exec.examples.length) -
              ((actionCmds a).take (5 - s.shell_exec.examples.length)).length := by
          omega
        rw [hidx, take_chain]
    · refine networkSummary_ext ?_ ?_ ?_ ?_ <;>
        simp [stepSummary, List.flatMap_cons, List.any_cons, List.append_assoc,
          Bool.or_assoc]
    · refine secretsSummary_ext ?_ ?_ ?_ <;>
        simp [stepSummary, List.flatMap_cons, List.any_cons, List.append_assoc,
          Bool.or_assoc]
    · simp [stepSummary, List.flatMap_cons, List.append_assoc]
    · simp [stepSummary]

theorem processDoc_eq (s : CapabilitySummary) (d : AgentDocument) :
    processDoc s d =
      { filesystem :=
          { read := s.filesystem.read ++ docReadPaths d
            write := s.filesystem.write ++ docWritePaths d
            touches_sensitive_paths :=
              s.filesystem.touches_sensitive_paths ++ docSensitivePaths d }
        shell_exec :=
          { enabled := s.shell_exec.enabled || docShellEnabled d
            dynamic_detected := s.shell_exec.dynamic_detected || docDynamic d
            examples := s.shell_exec.examples ++
              (docCmds d).take (5 - s.shell_exec.examples.length) }
        network :=
          { outbound := s.network.outbound || docOutbound d
            inbound := s.network.inbound || docInbound d
            allowed_domains := s.network.allowed_domains ++ docDomains d
            fetches_executable := s.network.fetches_executable || docFetchesExec d }
        secrets :=
          { env_vars_referenced := s.secrets.env_vars_referenced ++ docEnvVars d
            files_referenced := s.secrets.files_referenced ++ docFiles d
            propagation_detected := s.secrets.propagation_detected || docPropagation d }
        git := { ops := s.git.ops ++ docGitOps d }
        contexts :=
          { has_hooks := s.contexts.has_hooks || docHasHook d
            has_ci_context := s.contexts.has_ci_context || docCI d } } := by
  unfold processDoc
  by_cases hh : d.doc_type = .hook <;>
    by_cases hc : d.context_profile.runs_in_privileged_env <;>
    simp only [hh, hc, if_true, if_false, ite_true, ite_false, if_neg, if_pos,
      Bool.false_eq_true, not_false_eq_true] <;>
    (rw [foldl_processAction_eq]
     refine capabilitySummary_ext ?_ ?_ ?_ ?_ ?_ ?_ <;>
       simp [docReadPaths, docWritePaths, docSensitivePaths, docDomains, docGitOps,
         docEnvVars, docFiles, docCmds, docShellEnabled, docDynamic, docOutbound,
         docInbound, docFetchesExec, docPropagation, docHasHook, docCI, hh, hc])

theorem foldl_processDoc_eq (docs : List AgentDocument) : ∀ s : CapabilitySummary,
    docs.foldl processDoc s =
      { filesystem :=
          { read := s.filesystem.read ++ docs.flatMap docReadPaths
            write := s.filesystem.write ++ docs.flatMap docWritePaths
            touches_sensitive_paths :=
              s.filesystem.touches_sensitive_paths ++ docs.flatMap docSensitivePaths }
        shell_exec :=
          { enabled := s.shell_exec.enabled || docs.any docShellEnabled
            dynamic_detected := s.shell_exec.dynamic_detected || docs.any docDynamic
            examples := s.shell_exec.examples ++
              (docs.flatMap docCmds).take (5 - s.shell_exec.examples.length) }
        network :=
          { outbound := s.network.outbound || docs.any docOutbound
            inbound := s.network.inbound || docs.any docInbound
            allowed_domains := s.network.allowed_domains ++ docs.flatMap docDomains
            fetches_executable := s.network.fetches_executable || docs.any docFetchesExec }
        secrets :=
          { env_vars_referenced :=
              s.secrets.env_vars_referenced ++ docs.flatMap docEnvVars
            files_referenced := s.secrets.files_referenced ++ docs.flatMap docFiles
            propagation_detected :=
              s.secrets.propagation_detected || docs.any docPropagation }
        git := { ops := s.git.ops ++ docs.flatMap docGitOps }
        contexts :=
          { has_hooks := s.contexts.has_hooks || docs.any docHasHook
            has_ci_context := s.contexts.has_ci_context || docs.any docCI } } := by
  induction docs with
  | nil =>
    intro s
    simp
  | cons d ds ih =>
    intro s
    rw [List.foldl_cons, processDoc_eq, ih]
    refine capabilitySummary_ext ?_ ?_ ?_ ?_ ?_ ?_
    · refine filesystemSummary_ext ?_ ?_ ?_ <;>
        simp [List.flatMap_cons, List.append_assoc]
    · refine shellExecSummary_ext ?_ ?_ ?_
      · simp [List.any_cons, Bool.or_assoc]
      · simp [List.any_cons, Bool.or_assoc]
      · simp only []
        rw [List.flatMap_cons, List.append_assoc, List.length_append]
        congr 1
        have hidx : 5 - (s.shell_exec.examples.length +
            ((docCmds d).take (5 - s.shell_exec.examples.length)).length) =
            (5 - s.shell_exec.examples.length) -
              ((docCmds d).take (5 - s.shell_exec.examples.length)).length := by
          omega
        rw [hidx, take_chain]
    · refine networkSummary_ext ?_ ?_ ?_ ?_ <;>
        simp [List.flatMap_cons, List.any_cons, List.append_assoc, Bool.or_assoc]
    · refine secretsSummary_ext ?_ ?_ ?_ <;>
        simp [List.flatMap_cons, List.any_cons, List.append_assoc, Bool.or_assoc]
    · simp [List.flatMap_cons, List.append_assoc]
    · simp [List.any_cons, Bool.or_assoc]

theorem computeCapabilitySummary_eq (docs : List AgentDocument) :
    computeCapabilitySummary docs =
      { filesystem :=
          { read := jsDedup (docs.flatMap docReadPaths)
            write := jsDedup (docs.flatMap docWritePaths)
            touches_sensitive_paths := jsDedup (docs.flatMap docSensitivePaths) }
        shell_exec :=
          { enabled := docs.any docShellEnabled
            dynamic_detected := docs.any docDynamic
            examples := (docs.flatMap docCmds).take 5 }
        network :=
          { outbound := docs.any docOutbound
            inbound := docs.any docInbound
            allowed_domains := jsDedup (docs.flatMap docDomains)
            fetches_executable := docs.any docFetchesExec }
        secrets :=
          { env_vars_referenced := jsDedup (docs.flatMap docEnvVars)
            files_referenced := jsDedup (docs.flatMap docFiles)
            propagation_detected := docs.any docPropagation }
        git := { ops := jsDedup (docs.flatMap docGitOps) }
        contexts :=
          { has_hooks := docs.any docHasHook
            has_ci_context := docs.any docCI } } := by
  unfold computeCapabilitySummary
  rw [foldl_processDoc_eq]
  simp [emptyCapabilitySummary]

/-- C4 (amended): aggregating the document list concatenated with itself
agrees with aggregating it once on every field except shell_exec.examples;
it agrees on examples too (hence on the whole summary) exactly when the
single-pass examples list is empty or has reached the 5-entry cap. -/
theorem computeCapabilitySummary_idempotent_except_examples
    (docs : List AgentDocument) :
    (computeCapabilitySummary (docs ++ docs)).filesystem =
        (computeCapabilitySummary docs).filesystem ∧
    (computeCapabilitySummary (docs ++ docs)).shell_exec.enabled =
        (computeCapabilitySummary docs).shell_exec.enabled ∧
    (computeCapabilitySummary (docs ++ docs)).shell_exec.dynamic_detected =
        (computeCapabilitySummary docs).shell_exec.dynamic_detected ∧
    (computeCapabilitySummary (docs ++ docs)).network =
        (computeCapabilitySummary docs).network ∧
    (computeCapabilitySummary (docs ++ docs)).secrets =
        (computeCapabilitySummary docs).secrets ∧
    (computeCapabilitySummary (docs ++ docs)).git =
        (computeCapabilitySummary docs).git ∧
    (computeCapabilitySummary (docs ++ docs)).contexts =
        (computeCapabilitySummary docs).contexts ∧
    ((computeCapabilitySummary docs).shell_exec.examples.length = 0 ∨
        (computeCapabilitySummary docs).shell_exec.examples.length = 5 →
      computeCapabilitySummary (docs ++ docs) = computeCapabilitySummary docs) := by
  rw [computeCapabilitySummary_eq docs, computeCapabilitySummary_eq (docs ++ docs)]
  simp only [List.flatMap_append, List.any_append, Bool.or_self, jsDedup_append_self]
  refine ⟨trivial, trivial, trivial, trivial, trivial, trivial, trivial, ?_⟩
  intro hlen
  refine capabilitySummary_ext rfl ?_ rfl rfl rfl rfl
  refine shellExecSummary_ext rfl rfl ?_
  rcases hlen with h0 | h5
  · rw [List.length_take] at h0
    have hnil : docs.flatMap docCmds = [] := by
      rw [← List.length_eq_zero]
      omega
    rw [hnil]
    rfl
  · rw [List.length_take] at h5
    have hge : 5 ≤ (docs.flatMap docCmds).length := by omega
    rw [List.take_append_eq_append_take]
    have h0' : 5 - (docs.flatMap docCmds).length = 0 := by omega
    rw [h0', List.take_zero, List.append_nil]

/-- C4 counterexample: a single one-shell-command document aggregated twice
duplicates the example command, so the claimed idempotence (including the
shell_exec.examples field) fails on the code. -/
theorem computeCapabilitySummary_not_idempotent :
    computeCapabilitySummary ([exampleShellDoc] ++ [exampleShellDoc]) ≠
      computeCapabilitySummary [exampleShellDoc] := by
  decide

/-- C4 witness: the amended idempotence applied at the empty document list,
whose examples list is empty. -/
theorem computeCapabilitySummary_idempotent_witness :
    computeCapabilitySummary (([] : List AgentDocument) ++ []) =
      computeCapabilitySummary ([] : List AgentDocument) :=
  (computeCapabilitySummary_idempotent_except_examples []).2.2.2.2.2.2.2
    (Or.inl (by decide))

/-- C3 witness: the gate applied to the one-rule example engine at its
emitted finding. -/
theorem confidence_gate_witness :
    exampleEngine.options.minConfidence ≤ exampleFinding.confidence :=
  (confidence_gate exampleEngine [exampleShellDoc] emptyCapabilitySummary).1
    exampleFinding
    (by simp only [evaluateAll, sortFindings, sortFindingsWith]
        rw [List.mem_mergeSort]
        decide)

/-! ## C9: SEC-001 environment secret reference findings -/

/-- C9 (amended): SEC-001 emits one finding per qualifying
(action, reads_env_vars entry) occurrence; in particular a document whose
single action lists STRIPE_SECRET_KEY once, with sufficient confidence and
the aggregated summary recording the variable, yields exactly one
high-severity SEC-001 finding. -/
theorem SEC001_single_occurrence (sha256 : String → String) (doc : AgentDocument)
    (allDocs : List AgentDocument) (summary : CapabilitySummary) (minConf : ℚ)
    (action : Action)
    (hdoc : doc.actions = [action])
    (hvars : action.secrets.bind (·.reads_env_vars) = some ["STRIPE_SECRET_KEY"])
    (hconf : minConf ≤ EnvironmentSecretReferenceRule.headConfidence action.evidence)
    (hsum : summary.secrets.env_vars_referenced = ["STRIPE_SECRET_KEY"]) :
    ∃ f : Finding,
      EnvironmentSecretReferenceRule.evaluate sha256
        { document := doc
          allDocuments := allDocs
          capabilitySummary := summary
          minConfidence := minConf } = [f] ∧
      f.severity = .high ∧ f.rule_id = "SEC-001" := by
  have hk : EnvironmentSecretReferenceRule.isKnownSecretVar "STRIPE_SECRET_KEY" = true := by
    decide
  have hnlt : ¬ (EnvironmentSecretReferenceRule.headConfidence action.evidence < minConf) :=
    not_lt.mpr hconf
  simp only [EnvironmentSecretReferenceRule.evaluate, hdoc, hvars, hsum,
    List.foldl_cons, List.foldl_nil, Option.getD_some, hk, if_true, if_neg hnlt,
    List.nil_append, createFinding, List.any_cons, List.any_nil, Bool.or_false,
    Bool.true_and]
  have hinc : jsIncludes
      ("Reference to secret environment variable: $" ++ "STRIPE_SECRET_KEY" ++
        ". Agents should not access secrets directly.") "STRIPE_SECRET_KEY" = true := by
    decide
  simp only [hinc, Bool.not_true, Bool.and_false, Bool.false_eq_true, if_false]
  exact ⟨_, rfl, rfl, rfl⟩

/-- C9 counterexample: two actions in one document each referencing
STRIPE_SECRET_KEY produce two SEC-001 findings, not exactly one. -/
theorem SEC001_two_actions_two_findings :
    (EnvironmentSecretReferenceRule.evaluate (fun s => s)
      { document := stripeDocTwoActions
        allDocuments := [stripeDocTwoActions]
        capabilitySummary := stripeSummary
        minConfidence := 0 }).length = 2 := by
  decide

/-- C9 witness: the amended per-occurrence statement at the concrete
one-action stripe document. -/
theorem SEC001_single_occurrence_witness :
    (EnvironmentSecretReferenceRule.evaluate (fun s => s)
      { document := stripeDocOneAction
        allDocuments := [stripeDocOneAction]
        capabilitySummary := stripeSummary
        minConfidence := 0 }).length = 1 := by
  obtain ⟨f, hf, _, _⟩ := SEC001_single_occurrence (fun s => s) stripeDocOneAction
    [stripeDocOneAction] stripeSummary 0 stripeAction rfl rfl (by decide) rfl
  rw [hf]
  rfl

end AgentLint
